import Mathlib

/-!
Verification of the TACSAssembler core (file src/TACSAssembler.c) against its
natural-language specification.

The C++ class TACSAssembler is shallowly embedded as a Lean structure holding
the member fields relevant to the verified operations, and each member function
is embedded as a pure Lean function from (and, where it mutates, to) that
structure.  Machine ints are modelled as Int (node numbers can be negative:
a dependent node k is encoded as -(k+1)), array indices as Nat, and the
TacsScalar floating-point type as Rat (only copied and added here, never
rounded).  CSR pairs (ptr, array) are represented as lists of runs, one run
per row.

Code of the repository that lives outside src (FElibrary, MatUtils, the
TACSVarMap / TACSBcMap / TACSBVec helper classes) and the external ordering
packages (AMD, METIS, RCM) are modelled from the specification text; every
such definition carries a doc comment saying so.
-/

namespace TACS

/-- Stand-in for the TacsScalar floating-point type: the verified operations
only store, copy and add scalars, so an exact field is used. -/
abbrev TacsScalar := Rat

/-- Modelled from the spec: FElibrary::uniqueSort (FElibrary is repository code
not under src).  Per section 4.3 of the spec the candidate list is sorted and
deduplicated; the source compacts the array in place and returns the new
length, here the sorted duplicate-free list itself is returned. -/
def uniqueSort (l : List Int) : List Int :=
  l.toFinset.sort (· ≤ ·)

/-- Modelled from the spec: the same sort-and-deduplicate operation on lists
of element indices (used by the node-to-element inversion of section 4.4). -/
def uniqueSortNat (l : List Nat) : List Nat :=
  l.toFinset.sort (· ≤ ·)

/-- One record of the boundary-condition map.  TACSBcMap::addBC (repository
code not under src) is modelled from the spec (section 3, boundary condition
set): it appends the constrained node, the number of constrained DOFs and the
optional DOF list / value list. -/
structure BCRec where
  node : Int
  nvars : Int
  vars : Option (List Int)
  vals : Option (List TacsScalar)
deriving DecidableEq

/-- The TACSAssembler state: the member fields of the C++ class that the
verified member functions read or write.

ownerRange is the array held by varMap (TACSVarMap, constructed collectively
from numOwnedNodes, code not under src); it is kept as a function from index
to global ID, used at indices 0 .. mpiSize.
elementConn is the pair (elementNodeIndex, elementTacsNodes) as a list of
runs, none when the connectivity has not been set.
elemNumNodes is numNodes() of each entry of the elements array, none when
setElements has not been called.
depNodes is the TACSBVecDepNodes table: for dependent node k the list of
(independent global node, weight) pairs.
extDistIndices is the index list held by the extDist distribution object. -/
structure Assembler where
  mpiRank : Nat
  mpiSize : Nat
  ownerRange : Nat → Int
  varsPerNode : Int
  numElements : Nat
  numOwnedNodes : Nat
  numDependentNodes : Nat
  elementConn : Option (List (List Int)) := none
  elemNumNodes : Option (List Nat) := none
  depNodes : Option (List (List (Int × TacsScalar))) := none
  tacsExtNodeNums : Option (List Int) := none
  extDistIndices : Option (List Int) := none
  numNodes : Nat := 0
  numExtNodes : Nat := 0
  extNodeOffset : Nat := 0
  meshInitializedFlag : Bool := false
  bcMap : List BCRec := []
  distMatIndices : Option (List Int) := none

/-- The external node array consulted by getLocalNodeNum / getGlobalNodeNum:
tacsExtNodeNums when it is set, otherwise the indices of extDistIndices
(TACSAssembler.c lines 1109-1119 and 1169-1179). -/
def extNodeList (a : Assembler) : Option (List Int) :=
  match a.tacsExtNodeNums with
  | some ext => some ext
  | none => a.extDistIndices

/-- TACSAssembler::getLocalNodeNum (TACSAssembler.c lines 1099-1149).
Owned nodes are translated by a range test; external nodes are located in the
sorted external array (the bsearch of the source is modelled by indexOf, which
agrees with any binary search on a sorted duplicate-free array); failures
return -1 after printing a message. -/
def getLocalNodeNum (a : Assembler) (node : Int) : Int :=
  let lo := a.ownerRange a.mpiRank
  let hi := a.ownerRange (a.mpiRank + 1)
  if lo ≤ node ∧ node < hi then
    (node - lo) + (a.extNodeOffset : Int)
  else if 0 ≤ node then
    match extNodeList a with
    | none => -1
    | some ext =>
      if node ∈ ext then
        if node < lo then (ext.indexOf node : Int)
        else (a.numOwnedNodes : Int) + (ext.indexOf node : Int)
      else -1
  else -1

/-- TACSAssembler::getGlobalNodeNum (TACSAssembler.c lines 1163-1209).
Reads of ext_nodes at an index outside the array (undefined behaviour in the
source, unreachable for valid local node numbers) are modelled as -1. -/
def getGlobalNodeNum (a : Assembler) (node : Int) : Int :=
  let lo := a.ownerRange a.mpiRank
  if node < (a.extNodeOffset : Int) then
    match extNodeList a with
    | none => -1
    | some ext => ext.getD node.toNat (-1)
  else if node < (a.extNodeOffset : Int) + (a.numOwnedNodes : Int) then
    (node - (a.extNodeOffset : Int)) + lo
  else if node < (a.numNodes : Int) then
    match extNodeList a with
    | none => -1
    | some ext => ext.getD (node - (a.numOwnedNodes : Int)).toNat (-1)
  else -1

/-- The filter applied by the candidate-collection loops of computeExtNodes
(TACSAssembler.c lines 647-674): keep the non-negative node numbers outside
the ownership range of this process. -/
def externalCandidates (lo hi : Int) (l : List Int) : List Int :=
  l.filter (fun node => decide (0 ≤ node ∧ (node < lo ∨ hi ≤ node)))

/-- The flattened dependent-node parent list (depNodeConn in the source),
empty when no dependent nodes are set. -/
def depConnFlat (a : Assembler) : List Int :=
  match a.depNodes with
  | none => []
  | some dep => (dep.map (fun row => row.map Prod.fst)).flatten

/-- TACSAssembler::computeExtNodes (TACSAssembler.c lines 613-699).
Collects the external candidates from the element connectivity and the
dependent-node parent lists, sorts and deduplicates them, stores the result
in tacsExtNodeNums, and sets numExtNodes, numNodes and extNodeOffset (the
while loop of lines 692-696 counts the leading entries below the ownership
range).  Returns the error code together with the updated state. -/
def computeExtNodes (a : Assembler) : Int × Assembler :=
  if a.meshInitializedFlag then (1, a)
  else
    match a.elementConn with
    | none => (1, a)
    | some conn =>
      let lo := a.ownerRange a.mpiRank
      let hi := a.ownerRange (a.mpiRank + 1)
      let extList := externalCandidates lo hi conn.flatten
        ++ externalCandidates lo hi (depConnFlat a)
      let ext := uniqueSort extList
      let nExt := ext.length
      let off := (ext.takeWhile (fun x => decide (x < lo))).length
      (0, { a with tacsExtNodeNums := some ext,
                   numExtNodes := nExt,
                   numNodes := a.numOwnedNodes + nExt,
                   extNodeOffset := off })

/-- The set of external candidate nodes of claim C2: non-negative global IDs
appearing in the element connectivity or a dependent-node parent list, outside
the ownership range of this process. -/
def extCandidateSet (a : Assembler) (conn : List (List Int)) : Finset Int :=
  (conn.flatten ++ depConnFlat a).toFinset.filter
    (fun g => 0 ≤ g ∧
      (g < a.ownerRange a.mpiRank ∨ a.ownerRange (a.mpiRank + 1) ≤ g))

/-- Expansion of one connectivity entry (TACSAssembler.c lines 1248-1261 and
analogous loops): a non-negative entry is an independent global node, a
negative entry -(k+1) is dependent node k and is replaced by its independent
parents from the dependent-node table. -/
def expandNode (a : Assembler) (node : Int) : List Int :=
  if 0 ≤ node then [node]
  else
    match a.depNodes with
    | none => []
    | some dep => (dep.getD (-node - 1).toNat []).map Prod.fst

/-- The connectivity run of element e (the slice of elementTacsNodes between
elementNodeIndex[e] and elementNodeIndex[e+1]). -/
def elemRun (a : Assembler) (e : Nat) : List Int :=
  (a.elementConn.getD []).getD e []

/-- The connectivity of element e after replacing each dependent node by its
independent parents. -/
def elemExpandedConn (a : Assembler) (e : Nat) : List Int :=
  (elemRun a e).flatMap (expandNode a)

/-- The expanded connectivity of element e translated to local node numbers,
as done entry by entry in computeNodeToElementCSR and
computeLocalNodeToNodeCSR. -/
def elemLocalConn (a : Assembler) (e : Nat) : List Int :=
  (elemExpandedConn a e).map (getLocalNodeNum a)

/-- TACSAssembler::computeNodeToElementCSR (TACSAssembler.c lines 1227-1314):
for every local node, the elements whose (dependent-expanded, localized)
connectivity contains it.  The source appends element e once per occurrence
of the node in the run of e and then calls matutils::SortAndUniquifyCSR; the
final sort-and-deduplicate is modelled from the spec (section 4.4, step 1). -/
def computeNodeToElementCSR (a : Assembler) : List (List Nat) :=
  (List.range a.numNodes).map (fun n =>
    uniqueSortNat ((List.range a.numElements).flatMap (fun e =>
      (elemLocalConn a e).filterMap (fun x =>
        if x = Int.ofNat n then some e else none))))

/-- Modelled from the spec: matutils::SortAndUniquifyCSR applied to one row
(MatUtils is repository code not under src).  Per section 4.4 of the spec each
row is sorted, deduplicated, and when the nodiag flag is set the diagonal
entry is dropped. -/
def sortUnifyRow (nodiag : Bool) (diag : Int) (row : List Int) : List Int :=
  let s := uniqueSort row
  if nodiag then s.filter (fun x => decide (x ≠ diag)) else s

/-- TACSAssembler::computeLocalNodeToNodeCSR (TACSAssembler.c lines
1341-1497): row i is the union of the localized expanded connectivities of
all elements touching local node i, sorted and deduplicated, with the
diagonal dropped when nodiag is set.  The conservative estimate-then-compact
array construction of the source is replaced by direct list construction
(spec section 9 declares that an implementation freedom). -/
def computeLocalNodeToNodeCSR (a : Assembler) (nodiag : Bool) :
    List (List Int) :=
  (List.range a.numNodes).map (fun i =>
    sortUnifyRow nodiag (Int.ofNat i)
      (((computeNodeToElementCSR a).getD i []).flatMap
        (fun e => elemLocalConn a e)))

/-- The element-size consistency check of setElementConnectivity
(TACSAssembler.c lines 310-320), active only when the elements array has been
set. -/
def connSizeMismatch (a : Assembler) (conn : List (List Int)) : Bool :=
  match a.elemNumNodes with
  | none => false
  | some ns => (List.range a.numElements).any (fun i =>
      (conn.getD i []).length != ns.getD i 0)

/-- TACSAssembler::setElementConnectivity (TACSAssembler.c lines 282-344).
Order of operations in the source: the two guards run first; then the old
arrays are freed and the NEW connectivity is copied into the member arrays
(lines 298-307); only after that do the element-size check (lines 310-320)
and the node-range check (lines 327-343) run, so an error found by those
checks returns with the new connectivity already committed.  The success path
of the source falls off the end of the function without a return statement;
the model returns 0 there. -/
def setElementConnectivity (a : Assembler) (conn : List (List Int)) :
    Int × Assembler :=
  if a.meshInitializedFlag then (1, a)
  else if a.tacsExtNodeNums.isSome then (1, a)
  else
    let a1 := { a with elementConn := some conn }
    if connSizeMismatch a conn then (1, a1)
    else
      match (conn.take a.numElements).flatten.find? (fun node =>
          decide (a.ownerRange a.mpiSize ≤ node
            ∨ node < -(a.numDependentNodes : Int))) with
      | some _ => (-1, a1)
      | none => (0, a1)

/-- The flattened list of independent parents of a dependent-node table. -/
def depParents (dep : List (List (Int × TacsScalar))) : List Int :=
  (dep.map (fun row => row.map Prod.fst)).flatten

/-- TACSAssembler::setDependentNodes (TACSAssembler.c lines 436-496).  After
the two guards, line 453 decrefs (frees) any previously stored dependent-node
table, and only THEN does the validation loop (lines 461-476) run: a parent
at or above ownerRange[mpiSize] or below zero returns 1, with the old table
already destroyed (the member keeps a stale pointer in the source, modelled
here as none); when every parent is valid the table is copied into a fresh
TACSBVecDepNodes object and 0 is returned.  The list argument is the table
read by the source, one row per dependent node. -/
def setDependentNodes (a : Assembler) (dep : List (List (Int × TacsScalar))) :
    Int × Assembler :=
  if a.meshInitializedFlag then (1, a)
  else if a.tacsExtNodeNums.isSome then (1, a)
  else
    let a1 := { a with depNodes := none }
    match (depParents dep).find? (fun p =>
        decide (a.ownerRange a.mpiSize ≤ p ∨ p < 0)) with
    | some _ => (1, a1)
    | none => (0, { a1 with depNodes := some dep })

/-- TACSAssembler::addBCs (TACSAssembler.c lines 502-529).  After the
initialize guard, a NULL variable list or a negative count makes the number
of constrained DOFs default to varsPerNode (lines 514-516); then every input
node inside the ownership range of this process is handed to
TACSBcMap::addBC, and every other node is skipped with no message and no
state change (lines 523-528).  TACSBcMap::addBC (repository code not under
src) is modelled from the spec as appending the record. -/
def addBCs (a : Assembler) (nodes : List Int) (nbcs : Int)
    (vars : Option (List Int)) (vals : Option (List TacsScalar)) : Assembler :=
  if a.meshInitializedFlag then a
  else
    let nbcs2 := if vars = none ∨ nbcs < 0 then a.varsPerNode else nbcs
    { a with bcMap := (a.bcMap ++
        (nodes.filter (fun n =>
          decide (a.ownerRange a.mpiRank ≤ n
            ∧ n < a.ownerRange (a.mpiRank + 1)))).map
          (fun n => ⟨n, nbcs2, vars, vals⟩)) }

/-- One diagnostic line printed to stderr: the process rank of the fprintf
tag and the message text. -/
structure ErrEntry where
  rank : Nat
  msg : String
deriving DecidableEq

/-- The arguments handed to the TACSBVec constructor by createVec. -/
structure BVecInfo where
  varsPerNode : Int
  bcs : List BCRec
  dep : Option (List (List (Int × TacsScalar)))
deriving DecidableEq

/-- The arguments handed to the DistMat constructor by createMat. -/
structure MatInfo where
  varsPerNode : Int
  numNodes : Nat
  csr : List (List Int)
deriving DecidableEq

/-- TACSAssembler::createVec (TACSAssembler.c lines 2267-2277): before
initialize() it prints a rank-tagged error and returns NULL; otherwise it
returns a new TACSBVec built from the member state.  The result carries the
returned object (none models NULL), the state after the call, and the
diagnostic lines printed. -/
def createVec (a : Assembler) :
    Option BVecInfo × Assembler × List ErrEntry :=
  if !a.meshInitializedFlag then
    (none, a, [⟨a.mpiRank, "Cannot call createVec() before initialize()"⟩])
  else
    (some ⟨a.varsPerNode, a.bcMap, a.depNodes⟩, a, [])

/-- TACSAssembler::createMat (TACSAssembler.c lines 2291-2326): before
initialize() it prints a rank-tagged error and returns NULL with nothing
changed; otherwise it computes distMatIndices on first use (lines 2299-2309),
computes the local node-to-node CSR and returns a new DistMat. -/
def createMat (a : Assembler) :
    Option MatInfo × Assembler × List ErrEntry :=
  if !a.meshInitializedFlag then
    (none, a, [⟨a.mpiRank, "Cannot call createMat() before initialize()"⟩])
  else
    let a1 :=
      match a.distMatIndices with
      | some _ => a
      | none => { a with distMatIndices :=
          (some ((List.range a.numNodes).map
            (fun i => getGlobalNodeNum a (Int.ofNat i)))) }
    (some ⟨a1.varsPerNode, a1.numNodes, computeLocalNodeToNodeCSR a1 false⟩,
      a1, [])

/-- Pointwise maximum of a list of scalars, zero on the empty list (used to
model the MPI max reduction). -/
def maxD (l : List TacsScalar) : TacsScalar :=
  match l with
  | [] => 0
  | x :: xs => xs.foldl max x

/-- Pointwise minimum of a list of scalars, zero on the empty list. -/
def minD (l : List TacsScalar) : TacsScalar :=
  match l with
  | [] => 0
  | x :: xs => xs.foldl min x

/-- TACSAssembler::getDesignVars (TACSAssembler.c lines 2188-2207), viewed
across the whole process group: each process collects values from its
elements into a temporary array and the arrays are combined by MPI_Allreduce
with TACS_MPI_MAX, so every process receives the pointwise maximum.  Kept for
contrast with getDesignVarRange, which contains no reduction. -/
def getDesignVarsAllreduce (perProc : List (List TacsScalar))
    (numDVs : Nat) : List TacsScalar :=
  (List.range numDVs).map (fun j => maxD (perProc.map (fun l => l.getD j 0)))

/-- TACSAssembler::getDesignVarRange (TACSAssembler.c lines 2241-2253): it
loops over the elements of this process and then over the auxiliary elements,
each writing its design-variable bounds into the lb/ub arrays, and returns.
Each element object is abstracted as a function acting on the pair of bound
arrays (the auxiliary elements are the tail of the list).  There is no MPI
call anywhere in the function body, although the doc comment above it (lines
2229-2239) announces a collective best-guess reconciliation. -/
def getDesignVarRange
    (elemFns : List (List TacsScalar × List TacsScalar
      → List TacsScalar × List TacsScalar))
    (lb ub : List TacsScalar) : List TacsScalar × List TacsScalar :=
  elemFns.foldl (fun s f => f s) (lb, ub)

/-- The behaviour claim C8 describes (and the source doc comment at lines
2229-2239 announces): for every design variable index, the maximum over
processes of the per-process lower bounds and the minimum over processes of
the per-process upper bounds.  Stated from the spec words, for comparison
with the implementation. -/
def claimedDesignVarRange (perProcLb perProcUb : List (List TacsScalar))
    (numDVs : Nat) : List TacsScalar × List TacsScalar :=
  ((List.range numDVs).map (fun j => maxD (perProcLb.map (fun l => l.getD j 0))),
   (List.range numDVs).map (fun j => minD (perProcUb.map (fun l => l.getD j 0))))

/-- Elementwise sum of two residual buffers (the accumulation of an element
or auxiliary-element addResidual call into the elemRes scratch buffer). -/
def addLists (x y : List TacsScalar) : List TacsScalar :=
  List.zipWith (· + ·) x y

/-- TACSBVec::setValues with ADD_VALUES (repository code not under src),
modelled from the spec (section 4.3): the contribution of entry k of the
value buffer is added to the vector entry of global node nodes[k].  The
varsPerNode scalars of one node are represented by one scalar. -/
def addVals (v : Int → TacsScalar) (nodes : List Int)
    (vals : List TacsScalar) : Int → TacsScalar :=
  (nodes.zip vals).foldl
    (fun w p => Function.update w p.1 (w p.1 + p.2)) v

/-- TACSBVec::zeroEntries, modelled from the spec: every entry becomes 0. -/
def zeroEntries (_v : Int → TacsScalar) : Int → TacsScalar :=
  fun _ => 0

/-- The inputs of one assembleRes call: the element connectivity runs, the
residual contribution of each element (the effect of
elements[i]->addResidual on the state gathered from xptVec / varsVec /
dvarsVec / ddvarsVec, all fixed during the call), and the auxiliary element
list as pairs of element index and contribution. -/
structure ResAssembly where
  numElements : Nat
  conn : List (List Int)
  elemRes : Nat → List TacsScalar
  aux : List (Nat × List TacsScalar)

/-- TACSAuxElements::sort (repository code not under src), modelled from the
spec: the auxiliary element list ordered by element index. -/
def sortAux (aux : List (Nat × List TacsScalar)) :
    List (Nat × List TacsScalar) :=
  aux.mergeSort (fun p q => decide (p.1 ≤ q.1))

/-- The aux_count cursor loop of assembleRes (TACSAssembler.c lines
2774-2778): while the head of the remaining auxiliary list has the current
element index, add its contribution into the element residual buffer and
advance.  Returns the accumulated buffer and the remaining list. -/
def auxConsume (i : Nat) : List (Nat × List TacsScalar) → List TacsScalar
    → List TacsScalar × List (Nat × List TacsScalar)
  | [], acc => (acc, [])
  | (n, c) :: rest, acc =>
    if n = i then auxConsume i rest (addLists acc c)
    else (acc, (n, c) :: rest)

/-- The single-thread element loop of assembleRes (TACSAssembler.c lines
2758-2782): for each element index in order, gather the element residual,
merge the matching auxiliary contributions through the cursor, and add the
result into the residual vector. -/
def resLoop (st : ResAssembly) : List Nat → List (Nat × List TacsScalar)
    → (Int → TacsScalar) → (Int → TacsScalar)
  | [], _, r => r
  | i :: rest, aux, r =>
    let e1 := auxConsume i aux (st.elemRes i)
    resLoop st rest e1.2 (addVals r (st.conn.getD i []) e1.1)

/-- TACSAssembler::assembleRes (TACSAssembler.c lines 2709-2791), the
single-thread branch of the element loop: sort the auxiliary elements, zero
the residual, run the element loop, perform the cross-process add-reduction
(beginSetValues/endSetValues with ADD_VALUES, abstracted as the function
reduceAdd), and finally apply the boundary conditions (abstracted as the
function applyBCs). -/
def assembleRes (st : ResAssembly)
    (reduceAdd applyBCs : (Int → TacsScalar) → (Int → TacsScalar))
    (residual : Int → TacsScalar) : Int → TacsScalar :=
  let auxSorted := sortAux st.aux
  let r0 := zeroEntries residual
  let r1 := resLoop st (List.range st.numElements) auxSorted r0
  let r2 := reduceAdd r1
  applyBCs r2

/-- The total contribution of element i: its own residual plus every
auxiliary contribution registered for element index i. -/
def elemContribution (st : ResAssembly) (i : Nat) : List TacsScalar :=
  ((sortAux st.aux).filter (fun p => decide (p.1 = i))).foldl
    (fun acc p => addLists acc p.2) (st.elemRes i)

/-- The element accumulation phase described by the claim: starting from the
zero vector, every element contribution (element residual plus matching
auxiliary contributions) is scatter-added. -/
def elementAccum (st : ResAssembly) : Int → TacsScalar :=
  (List.range st.numElements).foldl
    (fun r i => addVals r (st.conn.getD i []) (elemContribution st i))
    (fun _ => 0)

/-- TACSAssembler::computeCouplingNodes (TACSAssembler.c lines 1726-1823).
The communication phase (FElibrary::matchIntervals, MPI_Alltoall and
MPI_Alltoallv, FElibrary::uniqueSort of the received nodes, lines 1743-1782)
delivers on this process the sorted unique list of owned global node numbers
requested by other processes; that list is the parameter recvSorted.  The
returned coupling-node list (lines 1786-1806) is: the external nodes below
the ownership range, the local numbers of the requested owned nodes, and the
external nodes above the ownership range. -/
def computeCouplingNodes (a : Assembler) (recvSorted : List Int) : List Int :=
  (List.range a.extNodeOffset).map (fun i => Int.ofNat i)
    ++ recvSorted.map (fun r => getLocalNodeNum a r)
    ++ (List.range' a.extNodeOffset (a.numExtNodes - a.extNodeOffset)).map
        (fun i => ((a.numOwnedNodes + i : Nat) : Int))

/-- The numbering pattern used twice inside computeReordering
(TACSAssembler.c lines 817-847 and 854-901): the selected local nodes (flag
true) are labelled consecutively in increasing local-index order, and the
selected node with label j receives base + perm[j], where perm is the array
returned by computeMatReordering; unselected nodes keep their current
values. -/
def assignReduced (flags : List Bool) (base : Int) (perm : List Nat)
    (cur : List Int) : List Int :=
  (List.range cur.length).map (fun i =>
    if flags.getD i false then
      base + ((perm.getD ((flags.take i).countP id) 0 : Nat) : Int)
    else cur.getD i 0)

/-- The first reduced set of the multi-process DIRECT_SCHUR branch of
computeReordering (TACSAssembler.c lines 778-796 and 817-824): the flag array
marking the owned local nodes that are not coupling nodes (the external nodes
and the coupling nodes are excluded with -1 in the source). -/
def schurLocalFlags (a : Assembler) (coupling : List Int) : List Bool :=
  (List.range a.numNodes).map (fun i =>
    decide (a.extNodeOffset ≤ i ∧ i < a.extNodeOffset + a.numOwnedNodes
      ∧ ¬Int.ofNat i ∈ coupling))

/-- The second reduced set of computeReordering (TACSAssembler.c lines
857-868): the owned local nodes not ordered by the first pass, which are
exactly the owned coupling nodes. -/
def schurCouplingFlags (a : Assembler) (coupling : List Int) : List Bool :=
  (List.range a.numNodes).map (fun i =>
    decide (a.extNodeOffset ≤ i ∧ i < a.extNodeOffset + a.numOwnedNodes
      ∧ Int.ofNat i ∈ coupling))

/-- Number of owned non-coupling local nodes (numReducedNodes of the first
ordering pass). -/
def schurLocalCount (a : Assembler) (recvSorted : List Int) : Nat :=
  (schurLocalFlags a (computeCouplingNodes a recvSorted)).countP id

/-- Number of owned coupling local nodes (numReducedNodes of the second
ordering pass). -/
def schurCouplingCount (a : Assembler) (recvSorted : List Int) : Nat :=
  (schurCouplingFlags a (computeCouplingNodes a recvSorted)).countP id

/-- The newNodeNums array computed by TACSAssembler::computeReordering
(TACSAssembler.c lines 724-934) in the multi-process DIRECT_SCHUR case.
The two computeMatReordering results are the parameters perm1 and perm2: the
ordering back ends (AMD, METIS, RCM) are external packages outside the spec
scope, which guarantees only that each returns a permutation of 0..n-1 (spec
sections 4.5 and 8); NATURAL_ORDER returns the identity (lines 1069-1080).
The MPI_Alltoallv of lines 916-921 delivers the new numbers that the owning
processes assigned to the external nodes; that incoming array is the
parameter newExtNodes, written into the external local slots (lines 926-931).
The subsequent rewriting of connectivity, dependent nodes, boundary
conditions and the external list (lines 936-978) consumes this array and does
not modify it. -/
def computeReorderingNewNodeNums (a : Assembler)
    (recvSorted newExtNodes : List Int) (perm1 perm2 : List Nat) : List Int :=
  let coupling := computeCouplingNodes a recvSorted
  let lo := a.ownerRange a.mpiRank
  let flags1 := schurLocalFlags a coupling
  let c1 := flags1.countP id
  let nums1 := assignReduced flags1 lo perm1 (List.replicate a.numNodes 0)
  let flags2 := schurCouplingFlags a coupling
  let nums2 := assignReduced flags2 (lo + (c1 : Int)) perm2 nums1
  (List.range a.numNodes).map (fun i =>
    if i < a.extNodeOffset then newExtNodes.getD i 0
    else if a.extNodeOffset + a.numOwnedNodes ≤ i then
      newExtNodes.getD (i - a.numOwnedNodes) 0
    else nums2.getD i 0)

/-- A one-process assembler owning the single global node 0, with the
connectivity [[0]] already stored, used to exhibit the behaviour of
setElementConnectivity on an out-of-range node number. -/
def connCexAssembler : Assembler :=
  { mpiRank := 0, mpiSize := 1,
    ownerRange := fun i => if i = 0 then 0 else 1,
    varsPerNode := 1, numElements := 1, numOwnedNodes := 1,
    numDependentNodes := 0,
    elementConn := some [[0]] }

/-- The selected local node indices of a flag array, in increasing order (the
nodes given consecutive labels by the loops at TACSAssembler.c lines 817-824
and 857-868). -/
def selOf (flags : List Bool) : List Nat :=
  (List.range flags.length).filter (fun i => flags.getD i false)

/-- The owned window of the local index space: the local indices of the
nodes owned by this process (spec section 3 layout). -/
def ownedLocalNodes (a : Assembler) : List Nat :=
  (List.range a.numNodes).filter (fun i =>
    decide (a.extNodeOffset ≤ i ∧ i < a.extNodeOffset + a.numOwnedNodes))

/-- The new node number assigned to local node i by computeReordering. -/
def newOwnedNodeNum (a : Assembler)
    (recvSorted newExtNodes : List Int) (perm1 perm2 : List Nat)
    (i : Nat) : Int :=
  (computeReorderingNewNodeNums a recvSorted newExtNodes perm1 perm2).getD i 0

/-- A two-process assembler (rank 0 of 2) owning global nodes 0 and 1, with a
one-element connectivity referencing the external node 2, before the external
node computation: concrete input for the computeExtNodes witness. -/
def wExt : Assembler :=
  { mpiRank := 0, mpiSize := 2,
    ownerRange := fun i => if i = 0 then 0 else if i = 1 then 2 else 4,
    varsPerNode := 1, numElements := 1, numOwnedNodes := 2,
    numDependentNodes := 0,
    elementConn := some [[0, 1, 2]] }

/-- The same two-process assembler after the external node computation:
tacsExtNodeNums holds the single external node 2, local index layout
[owned 0, owned 1, external 2]. -/
def wLoc : Assembler :=
  { mpiRank := 0, mpiSize := 2,
    ownerRange := fun i => if i = 0 then 0 else if i = 1 then 2 else 4,
    varsPerNode := 1, numElements := 1, numOwnedNodes := 2,
    numDependentNodes := 0,
    elementConn := some [[0, 1, 2]],
    tacsExtNodeNums := some [2],
    numNodes := 3, numExtNodes := 1, extNodeOffset := 0 }

/-- A one-process assembler owning global nodes 0 and 1 with one two-node
element: concrete input for the adjacency witness. -/
def wCsr : Assembler :=
  { mpiRank := 0, mpiSize := 1,
    ownerRange := fun i => if i = 0 then 0 else 2,
    varsPerNode := 1, numElements := 1, numOwnedNodes := 2,
    numDependentNodes := 0,
    elementConn := some [[0, 1]],
    tacsExtNodeNums := some [],
    numNodes := 2, numExtNodes := 0, extNodeOffset := 0 }

/-- The assembler wExt with a dependent-node table already stored, as left by
a previous successful setDependentNodes call: concrete input for the
setDependentNodes counterexample and witness. -/
def wDep : Assembler :=
  { wExt with depNodes := some [[((0 : Int), (1 : TacsScalar))]],
              numDependentNodes := 1 }

theorem mem_uniqueSort (l : List Int) (x : Int) : x ∈ uniqueSort l ↔ x ∈ l := by
  simp [uniqueSort, Finset.mem_sort, List.mem_toFinset]

theorem sorted_uniqueSort (l : List Int) : (uniqueSort l).Sorted (· < ·) :=
  Finset.sort_sorted_lt _

theorem nodup_uniqueSort (l : List Int) : (uniqueSort l).Nodup :=
  (sorted_uniqueSort l).nodup

theorem length_uniqueSort (l : List Int) : (uniqueSort l).length = l.toFinset.card :=
  Finset.length_sort _

theorem sorted_lt_weaken {l : List Int} (h : l.Sorted (· < ·)) : l.Sorted (· ≤ ·) :=
  List.Pairwise.imp (fun hab => le_of_lt hab) h

theorem countP_eq_zero_of_head {x : Int} {t : List Int} (c : Int)
    (hx : ∀ y ∈ t, x ≤ y) (hxc : ¬x < c) :
    t.countP (fun y => decide (y < c)) = 0 :=
  List.countP_eq_zero.mpr (fun y hy => by
    simp only [decide_eq_true_eq]
    exact fun hyc => hxc (lt_of_le_of_lt (hx y hy) hyc))

/-- In a list sorted by the weak order, the entry at position i is below the
threshold exactly when i is below the number of entries below the threshold. -/
theorem getElem_lt_iff_lt_countP {l : List Int} (c : Int)
    (hl : l.Sorted (· ≤ ·)) :
    ∀ i (h : i < l.length),
      (l[i] < c ↔ i < l.countP (fun x => decide (x < c))) := by
  induction l with
  | nil => intro i h; simp at h
  | cons x t ih =>
    intro i h
    rcases List.pairwise_cons.mp hl with ⟨hx, ht⟩
    cases i with
    | zero =>
      simp only [List.getElem_cons_zero, List.countP_cons]
      by_cases hxc : x < c
      · simp [hxc]
      · simp [hxc, countP_eq_zero_of_head c hx hxc]
    | succ i =>
      simp only [List.getElem_cons_succ, List.countP_cons]
      by_cases hxc : x < c
      · have := ih ht i (by simpa using h)
        simp [hxc, this]
      · have hi : i < t.length := by simpa using h
        have h0 := countP_eq_zero_of_head c hx hxc
        have hmem : t[i] ∈ t := List.getElem_mem hi
        have hnlt : ¬t[i] < c := fun hc => hxc (lt_of_le_of_lt (hx _ hmem) hc)
        simp [hxc, h0, hnlt]

/-- For a list sorted by the weak order, the while-loop count of leading
entries below a threshold equals the total count of entries below it. -/
theorem length_takeWhile_eq_countP {l : List Int} (c : Int)
    (hl : l.Sorted (· ≤ ·)) :
    (l.takeWhile (fun x => decide (x < c))).length
      = l.countP (fun x => decide (x < c)) := by
  induction l with
  | nil => rfl
  | cons x t ih =>
    rcases List.pairwise_cons.mp hl with ⟨hx, ht⟩
    by_cases hxc : x < c
    · simp [List.takeWhile_cons, List.countP_cons, hxc, ih ht]
    · simp [List.takeWhile_cons, List.countP_cons, hxc,
        countP_eq_zero_of_head c hx hxc]

/-- C2: after computeExtNodes succeeds, tacsExtNodeNums is the strictly
increasing duplicate-free enumeration of exactly the set of non-negative
global node IDs appearing in the element connectivity or a dependent-node
parent list and lying outside the ownership range of this process;
numExtNodes is the size of that set, extNodeOffset is the number of its
members below ownerRange at mpiRank, and numNodes equals
numOwnedNodes + numExtNodes. -/
theorem computeExtNodes_spec (a : Assembler) (conn : List (List Int))
    (hinit : a.meshInitializedFlag = false)
    (hconn : a.elementConn = some conn) :
    (computeExtNodes a).1 = 0 ∧
    ∃ ext : List Int,
      (computeExtNodes a).2.tacsExtNodeNums = some ext ∧
      ext.Sorted (· < ·) ∧
      (∀ g : Int, g ∈ ext ↔
        (0 ≤ g ∧ (g ∈ conn.flatten ∨ g ∈ depConnFlat a) ∧
          (g < a.ownerRange a.mpiRank ∨ a.ownerRange (a.mpiRank + 1) ≤ g))) ∧
      (computeExtNodes a).2.numExtNodes = ext.length ∧
      (computeExtNodes a).2.numExtNodes = (extCandidateSet a conn).card ∧
      (computeExtNodes a).2.extNodeOffset
        = ext.countP (fun x => decide (x < a.ownerRange a.mpiRank)) ∧
      (computeExtNodes a).2.numNodes
        = a.numOwnedNodes + (computeExtNodes a).2.numExtNodes := by
  have hmem : ∀ g : Int,
      g ∈ uniqueSort (externalCandidates (a.ownerRange a.mpiRank)
          (a.ownerRange (a.mpiRank + 1)) conn.flatten
        ++ externalCandidates (a.ownerRange a.mpiRank)
          (a.ownerRange (a.mpiRank + 1)) (depConnFlat a)) ↔
        (0 ≤ g ∧ (g ∈ conn.flatten ∨ g ∈ depConnFlat a) ∧
          (g < a.ownerRange a.mpiRank ∨ a.ownerRange (a.mpiRank + 1) ≤ g)) := by
    intro g
    rw [mem_uniqueSort]
    simp only [externalCandidates, List.mem_append, List.mem_filter,
      decide_eq_true_eq]
    tauto
  have hcard : (externalCandidates (a.ownerRange a.mpiRank)
        (a.ownerRange (a.mpiRank + 1)) conn.flatten
      ++ externalCandidates (a.ownerRange a.mpiRank)
        (a.ownerRange (a.mpiRank + 1)) (depConnFlat a)).toFinset
      = extCandidateSet a conn := by
    apply Finset.ext
    intro g
    simp only [List.mem_toFinset, List.mem_append, externalCandidates,
      List.mem_filter, decide_eq_true_eq, extCandidateSet, Finset.mem_filter]
    tauto
  simp only [computeExtNodes, hinit, hconn, Bool.false_eq_true, if_false]
  refine ⟨trivial, _, rfl, sorted_uniqueSort _, hmem, rfl, ?_, ?_, trivial⟩
  · rw [length_uniqueSort, hcard]
  · exact length_takeWhile_eq_countP _ (sorted_lt_weaken (sorted_uniqueSort _))

theorem getLocalNodeNum_owned (a : Assembler) (node : Int)
    (h1 : a.ownerRange a.mpiRank ≤ node)
    (h2 : node < a.ownerRange (a.mpiRank + 1)) :
    getLocalNodeNum a node
      = (node - a.ownerRange a.mpiRank) + (a.extNodeOffset : Int) := by
  simp only [getLocalNodeNum]
  rw [if_pos ⟨h1, h2⟩]

theorem getLocalNodeNum_ext (a : Assembler) (ext : List Int)
    (hextlist : extNodeList a = some ext) (g : Int) (h0 : 0 ≤ g)
    (hno : ¬(a.ownerRange a.mpiRank ≤ g ∧ g < a.ownerRange (a.mpiRank + 1)))
    (hmem : g ∈ ext) :
    getLocalNodeNum a g =
      if g < a.ownerRange a.mpiRank then (ext.indexOf g : Int)
      else (a.numOwnedNodes : Int) + (ext.indexOf g : Int) := by
  simp only [getLocalNodeNum, hextlist]
  rw [if_neg hno, if_pos h0, if_pos hmem]

theorem getGlobalNodeNum_low (a : Assembler) (ext : List Int)
    (hextlist : extNodeList a = some ext) (node : Int)
    (h : node < (a.extNodeOffset : Int)) :
    getGlobalNodeNum a node = ext.getD node.toNat (-1) := by
  simp only [getGlobalNodeNum, hextlist]
  rw [if_pos h]

theorem getGlobalNodeNum_mid (a : Assembler) (node : Int)
    (h1 : ¬node < (a.extNodeOffset : Int))
    (h2 : node < (a.extNodeOffset : Int) + (a.numOwnedNodes : Int)) :
    getGlobalNodeNum a node
      = (node - (a.extNodeOffset : Int)) + a.ownerRange a.mpiRank := by
  simp only [getGlobalNodeNum]
  rw [if_neg h1, if_pos h2]

theorem getGlobalNodeNum_high (a : Assembler) (ext : List Int)
    (hextlist : extNodeList a = some ext) (node : Int)
    (h1 : ¬node < (a.extNodeOffset : Int))
    (h2 : ¬node < (a.extNodeOffset : Int) + (a.numOwnedNodes : Int))
    (h3 : node < (a.numNodes : Int)) :
    getGlobalNodeNum a node
      = ext.getD (node - (a.numOwnedNodes : Int)).toNat (-1) := by
  simp only [getGlobalNodeNum, hextlist]
  rw [if_neg h1, if_neg h2, if_pos h3]

/-- C3: once the external node list has been computed, getGlobalNodeNum and
getLocalNodeNum are mutually inverse: every local index below numNodes round
trips through the global numbering, and every global ID that is owned by this
process or listed in the external node array round trips through the local
numbering.  The hypotheses are exactly the state produced by computeExtNodes
(theorem computeExtNodes_spec) plus the ownership-range width supplied by the
TACSVarMap prefix-sum construction (spec section 4.1). -/
theorem node_num_round_trip (a : Assembler) (ext : List Int)
    (hext : a.tacsExtNodeNums = some ext)
    (hsort : ext.Sorted (· < ·))
    (hrange : ∀ x ∈ ext, 0 ≤ x ∧
      (x < a.ownerRange a.mpiRank ∨ a.ownerRange (a.mpiRank + 1) ≤ x))
    (hoff : a.extNodeOffset
      = ext.countP (fun x => decide (x < a.ownerRange a.mpiRank)))
    (hnum : a.numExtNodes = ext.length)
    (htot : a.numNodes = a.numOwnedNodes + a.numExtNodes)
    (hown : a.ownerRange (a.mpiRank + 1)
      = a.ownerRange a.mpiRank + (a.numOwnedNodes : Int)) :
    (∀ l : Nat, l < a.numNodes →
      getLocalNodeNum a (getGlobalNodeNum a (l : Int)) = (l : Int)) ∧
    (∀ g : Int,
      ((a.ownerRange a.mpiRank ≤ g ∧ g < a.ownerRange (a.mpiRank + 1))
        ∨ g ∈ ext) →
      getGlobalNodeNum a (getLocalNodeNum a g) = g) := by
  have hnodup : ext.Nodup := hsort.nodup
  have hposIff := getElem_lt_iff_lt_countP (a.ownerRange a.mpiRank)
    (sorted_lt_weaken hsort)
  have hcntle : ext.countP (fun x => decide (x < a.ownerRange a.mpiRank))
      ≤ ext.length := List.countP_le_length _
  have hextlist : extNodeList a = some ext := by simp [extNodeList, hext]
  constructor
  · intro l hl
    by_cases hA : l < a.extNodeOffset
    · -- Case of an external node below the ownership range.
      have hlen : l < ext.length := by omega
      have hg : getGlobalNodeNum a (l : Int) = ext[l] := by
        rw [getGlobalNodeNum_low a ext hextlist _ (by exact_mod_cast hA)]
        simp only [Int.toNat_natCast]
        exact List.getD_eq_getElem ext (-1) hlen
      have hglo : ext[l] < a.ownerRange a.mpiRank :=
        (hposIff l hlen).mpr (by omega)
      have hg0 : 0 ≤ ext[l] := (hrange _ (List.getElem_mem hlen)).1
      rw [hg, getLocalNodeNum_ext a ext hextlist _ hg0
        (by intro hcon; omega) (List.getElem_mem hlen), if_pos hglo,
        List.indexOf_getElem hnodup l hlen]
    · by_cases hB : l < a.extNodeOffset + a.numOwnedNodes
      · -- Case of an owned node.
        have hg : getGlobalNodeNum a (l : Int)
            = ((l : Int) - (a.extNodeOffset : Int)) + a.ownerRange a.mpiRank :=
          getGlobalNodeNum_mid a _ (by exact_mod_cast hA) (by exact_mod_cast hB)
        rw [hg, getLocalNodeNum_owned a _ (by omega) (by rw [hown]; omega)]
        omega
      · -- Case of an external node above the ownership range.
        have hidx : l - a.numOwnedNodes < ext.length := by omega
        have hnat : ((l : Int) - (a.numOwnedNodes : Int)).toNat
            = l - a.numOwnedNodes := by omega
        have hg : getGlobalNodeNum a (l : Int) = ext[l - a.numOwnedNodes] := by
          rw [getGlobalNodeNum_high a ext hextlist _ (by exact_mod_cast hA)
            (by exact_mod_cast hB) (by exact_mod_cast hl), hnat]
          exact List.getD_eq_getElem ext (-1) hidx
        have hge : ¬ext[l - a.numOwnedNodes] < a.ownerRange a.mpiRank := by
          intro hcon
          have := (hposIff _ hidx).mp hcon
          omega
        have hg0 : 0 ≤ ext[l - a.numOwnedNodes] :=
          (hrange _ (List.getElem_mem hidx)).1
        have hhi : a.ownerRange (a.mpiRank + 1) ≤ ext[l - a.numOwnedNodes] := by
          rcases hrange _ (List.getElem_mem hidx) with ⟨-, h | h⟩
          · exact absurd h hge
          · exact h
        rw [hg, getLocalNodeNum_ext a ext hextlist _ hg0
          (by intro hcon; omega) (List.getElem_mem hidx), if_neg hge,
          List.indexOf_getElem hnodup _ hidx]
        omega
  · intro g hg
    by_cases howned : a.ownerRange a.mpiRank ≤ g ∧ g < a.ownerRange (a.mpiRank + 1)
    · -- Owned global ID.
      rw [getLocalNodeNum_owned a g howned.1 howned.2,
        getGlobalNodeNum_mid a _ (by omega) (by rw [hown] at howned; omega)]
      omega
    · -- External global ID.
      have hmem : g ∈ ext := by tauto
      have hidx : ext.indexOf g < ext.length := List.indexOf_lt_length.mpr hmem
      have hgetidx : ext[ext.indexOf g] = g := List.getElem_indexOf hidx
      have hg0 : 0 ≤ g := (hrange _ hmem).1
      rw [getLocalNodeNum_ext a ext hextlist g hg0 howned hmem]
      by_cases hglo : g < a.ownerRange a.mpiRank
      · have hlt : ext.indexOf g
            < ext.countP (fun x => decide (x < a.ownerRange a.mpiRank)) := by
          apply (hposIff _ hidx).mp
          rw [hgetidx]; exact hglo
        rw [if_pos hglo, getGlobalNodeNum_low a ext hextlist _ (by omega)]
        simp only [Int.toNat_natCast]
        rw [List.getD_eq_getElem ext (-1) hidx, hgetidx]
      · have hnlt : ¬ext.indexOf g
            < ext.countP (fun x => decide (x < a.ownerRange a.mpiRank)) := by
          intro hcon
          exact hglo (by have := (hposIff _ hidx).mpr hcon; rwa [hgetidx] at this)
        have hnat : (((a.numOwnedNodes : Int) + (ext.indexOf g : Int))
            - (a.numOwnedNodes : Int)).toNat = ext.indexOf g := by omega
        rw [if_neg hglo, getGlobalNodeNum_high a ext hextlist _ (by omega)
          (by omega) (by omega), hnat, List.getD_eq_getElem ext (-1) hidx,
          hgetidx]

/-- C9: addBCs records a boundary condition exactly for the input nodes that
lie inside the ownership range of this process, appending one record per such
node in input order; every node outside the range is skipped silently, with
no error and no change to the records of that node; and when the variable
list is NULL (none) or the count is negative, the number of constrained DOFs
defaults to varsPerNode. -/
theorem addBCs_spec (a : Assembler) (nodes : List Int) (nbcs : Int)
    (vars : Option (List Int)) (vals : Option (List TacsScalar))
    (h : a.meshInitializedFlag = false) :
    addBCs a nodes nbcs vars vals
      = { a with bcMap := (a.bcMap ++
          (nodes.filter (fun n =>
            decide (a.ownerRange a.mpiRank ≤ n
              ∧ n < a.ownerRange (a.mpiRank + 1)))).map
            (fun n => ⟨n, if vars = none ∨ nbcs < 0 then a.varsPerNode
              else nbcs, vars, vals⟩)) } ∧
    (∀ n ∈ nodes,
      (n < a.ownerRange a.mpiRank ∨ a.ownerRange (a.mpiRank + 1) ≤ n) →
      (addBCs a nodes nbcs vars vals).bcMap.filter
          (fun r => decide (r.node = n))
        = a.bcMap.filter (fun r => decide (r.node = n))) := by
  constructor
  · simp [addBCs, h]
  · intro n hn hout
    simp only [addBCs, h, Bool.false_eq_true, if_false, List.filter_append]
    have hnil : ((nodes.filter (fun m =>
        decide (a.ownerRange a.mpiRank ≤ m
          ∧ m < a.ownerRange (a.mpiRank + 1)))).map
          (fun m => (⟨m, if vars = none ∨ nbcs < 0 then a.varsPerNode
            else nbcs, vars, vals⟩ : BCRec))).filter
          (fun r => decide (r.node = n)) = [] := by
      rw [List.filter_eq_nil_iff]
      intro r hr
      rcases List.mem_map.mp hr with ⟨m, hm, hrm⟩
      rcases List.mem_filter.mp hm with ⟨-, hmrange⟩
      rcases decide_eq_true_iff.mp hmrange with ⟨hml, hmr⟩
      subst hrm
      simp only [decide_eq_true_eq]
      intro hcon
      have hmn : m = n := hcon
      omega
    rw [hnil, List.append_nil]

/-- C7 amended: setDependentNodes fails with error code 1 whenever some
listed parent node is negative (itself a dependent node) or at or above the
global node count, but the error path does NOT leave the stored table
unchanged: line 453 frees any previously stored dependent-node table before
the validation loop runs, so after a failing call no previously stored table
survives; when every parent is an in-range independent node the new table is
stored and 0 returned; consequently any table ever stored has only
non-negative in-range parents, so no chained or recursive dependent node is
ever stored. -/
theorem setDependentNodes_spec (a : Assembler)
    (dep : List (List (Int × TacsScalar)))
    (h1 : a.meshInitializedFlag = false)
    (h2 : a.tacsExtNodeNums = none) :
    ((∃ p ∈ depParents dep, p < 0 ∨ a.ownerRange a.mpiSize ≤ p) →
      setDependentNodes a dep = (1, { a with depNodes := none })) ∧
    ((∀ p ∈ depParents dep, 0 ≤ p ∧ p < a.ownerRange a.mpiSize) →
      setDependentNodes a dep = (0, { a with depNodes := some dep })) ∧
    ((setDependentNodes a dep).1 = 0 →
      ∀ table, (setDependentNodes a dep).2.depNodes = some table →
        ∀ p ∈ depParents table, 0 ≤ p ∧ p < a.ownerRange a.mpiSize) := by
  rcases hfind : (depParents dep).find? (fun p =>
      decide (a.ownerRange a.mpiSize ≤ p ∨ p < 0)) with _ | x
  · have hok : ∀ p ∈ depParents dep,
        0 ≤ p ∧ p < a.ownerRange a.mpiSize := by
      intro p hp
      have := List.find?_eq_none.mp hfind p hp
      simp only [decide_eq_true_eq] at this
      push_neg at this
      omega
    refine ⟨?_, ?_, ?_⟩
    · intro ⟨p, hp, hbad⟩
      rcases hok p hp with ⟨hge, hlt⟩
      omega
    · intro _
      simp only [setDependentNodes, h1, h2, Option.isSome_none,
        Bool.false_eq_true, if_false, hfind]
    · intro _ table htable
      have hdep : (setDependentNodes a dep).2.depNodes = some dep := by
        simp only [setDependentNodes, h1, h2, Option.isSome_none,
          Bool.false_eq_true, if_false, hfind]
      rw [hdep] at htable
      obtain rfl : dep = table := Option.some.inj htable
      exact hok
  · have heq : setDependentNodes a dep = (1, { a with depNodes := none }) := by
      simp only [setDependentNodes, h1, h2, Option.isSome_none,
        Bool.false_eq_true, if_false, hfind]
    refine ⟨fun _ => heq, ?_, ?_⟩
    · intro hok
      have hx := List.find?_some hfind
      have hxmem := List.mem_of_find?_eq_some hfind
      rcases hok x hxmem with ⟨hge, hlt⟩
      simp only [decide_eq_true_eq] at hx
      omega
    · rw [heq]
      intro h0
      exact absurd (h0 : (1 : Int) = 0) (by norm_num)

/-- C6 amended: when setElementConnectivity is called before initialization
and before reordering, with the element-size check passing and the
connectivity containing an out-of-range entry (a node number at or above the
global node count, or a dependent reference below -numDependentNodes), it
reports the configuration error by returning -1, but the partial state HAS
been committed: the stored element connectivity after the call is the new
input connectivity, the previous one having been freed and overwritten before
the range check ran. -/
theorem setElementConnectivity_error_commits (a : Assembler)
    (conn : List (List Int))
    (h1 : a.meshInitializedFlag = false)
    (h2 : a.tacsExtNodeNums = none)
    (h3 : connSizeMismatch a conn = false)
    (hbad : ∃ node ∈ (conn.take a.numElements).flatten,
      a.ownerRange a.mpiSize ≤ node ∨ node < -(a.numDependentNodes : Int)) :
    (setElementConnectivity a conn).1 = -1 ∧
    (setElementConnectivity a conn).2
      = { a with elementConn := some conn } := by
  have hfind : ((conn.take a.numElements).flatten.find? (fun node =>
      decide (a.ownerRange a.mpiSize ≤ node
        ∨ node < -(a.numDependentNodes : Int)))).isSome = true := by
    rw [List.find?_isSome]
    obtain ⟨x, hx, hp⟩ := hbad
    exact ⟨x, hx, by simpa using hp⟩
  rcases Option.isSome_iff_exists.mp hfind with ⟨x, hx⟩
  constructor <;>
    simp only [setElementConnectivity, h1, h2, h3, Option.isSome_none,
      Bool.false_eq_true, if_false, hx]

/-- C6 counterexample: the concrete assembler connCexAssembler stores the
connectivity [[0]]; calling setElementConnectivity with [[5]] (node 5 is at
or above the global node count 1) reports the error by returning -1, yet the
stored element connectivity after the call is the new input [[5]] and differs
from the stored connectivity before the call, so the call does NOT return
with the stored element connectivity unchanged, as the claim states. -/
theorem setElementConnectivity_cex :
    (setElementConnectivity connCexAssembler [[5]]).1 = -1 ∧
    connCexAssembler.elementConn = some [[0]] ∧
    (setElementConnectivity connCexAssembler [[5]]).2.elementConn
      = some [[5]] ∧
    ¬(setElementConnectivity connCexAssembler [[5]]).2.elementConn
      = connCexAssembler.elementConn := by
  refine ⟨by decide, rfl, by decide, by decide⟩

/-- Witness for the amended C6 theorem at the concrete input of the
counterexample. -/
theorem setElementConnectivity_error_commits_witness :
    connCexAssembler.meshInitializedFlag = false ∧
    connCexAssembler.tacsExtNodeNums = none ∧
    connSizeMismatch connCexAssembler [[5]] = false ∧
    (∃ node ∈ ([[(5 : Int)]].take connCexAssembler.numElements).flatten,
      connCexAssembler.ownerRange connCexAssembler.mpiSize ≤ node
        ∨ node < -(connCexAssembler.numDependentNodes : Int)) ∧
    ((setElementConnectivity connCexAssembler [[5]]).1 = -1 ∧
      (setElementConnectivity connCexAssembler [[5]]).2
        = { connCexAssembler with elementConn := some [[5]] }) :=
  ⟨rfl, rfl, rfl, ⟨5, by decide, by decide⟩,
    setElementConnectivity_error_commits connCexAssembler [[5]] rfl rfl rfl
      ⟨5, by decide, by decide⟩⟩

/-- C10: if initialize() has not yet been called, createVec and createMat
return NULL (none), print exactly one error line tagged with the process
rank, and leave the assembler state unchanged. -/
theorem createVec_createMat_uninitialized (a : Assembler)
    (h : a.meshInitializedFlag = false) :
    createVec a = (none, a,
      [⟨a.mpiRank, "Cannot call createVec() before initialize()"⟩]) ∧
    createMat a = (none, a,
      [⟨a.mpiRank, "Cannot call createMat() before initialize()"⟩]) := by
  constructor <;> simp [createVec, createMat, h]

/-- Witness for the C10 theorem on a concrete uninitialized assembler. -/
theorem createVec_createMat_uninitialized_witness :
    connCexAssembler.meshInitializedFlag = false ∧
    (createVec connCexAssembler = (none, connCexAssembler,
      [⟨0, "Cannot call createVec() before initialize()"⟩]) ∧
    createMat connCexAssembler = (none, connCexAssembler,
      [⟨0, "Cannot call createMat() before initialize()"⟩])) :=
  ⟨rfl, createVec_createMat_uninitialized connCexAssembler rfl⟩

/-- C8: evaluation exhibiting the divergence.  On a two-process run where the
single element of rank 0 reports bounds lb = 0, ub = 10 and the single
element of rank 1 reports lb = 1, ub = 5, the max/min reconciliation that the
claim (and the doc comment of the source, TACSAssembler.c lines 2229-2239)
describes yields lb = 1, ub = 5 on every process; but getDesignVarRange on
rank 0 returns its purely local bounds lb = 0, ub = 10, because the function
body contains no reduction at all. -/
theorem getDesignVarRange_no_reduction :
    getDesignVarRange [fun _ => ([0], [10])] [3] [7] = ([0], [10]) ∧
    claimedDesignVarRange [[0], [1]] [[10], [5]] 1 = ([1], [5]) ∧
    (([0], [10]) : List TacsScalar × List TacsScalar) ≠ ([1], [5]) := by
  refine ⟨rfl, by decide, by decide⟩

theorem mem_uniqueSortNat (l : List Nat) (x : Nat) :
    x ∈ uniqueSortNat l ↔ x ∈ l := by
  simp [uniqueSortNat, Finset.mem_sort, List.mem_toFinset]

theorem sorted_uniqueSortNat (l : List Nat) :
    (uniqueSortNat l).Sorted (· < ·) :=
  Finset.sort_sorted_lt _

theorem mem_sortUnifyRow (nodiag : Bool) (diag : Int) (row : List Int)
    (j : Int) :
    j ∈ sortUnifyRow nodiag diag row ↔ j ∈ row ∧ (nodiag = true → j ≠ diag) := by
  cases nodiag <;> simp [sortUnifyRow, mem_uniqueSort, List.mem_filter]

theorem sorted_sortUnifyRow (nodiag : Bool) (diag : Int) (row : List Int) :
    (sortUnifyRow nodiag diag row).Sorted (· < ·) := by
  cases nodiag
  · simpa [sortUnifyRow] using sorted_uniqueSort row
  · simpa [sortUnifyRow] using
      List.Pairwise.filter (fun x => decide (x ≠ diag)) (sorted_uniqueSort row)

theorem getD_map_range {α : Type} (n k : Nat) (f : Nat → α) (d : α)
    (h : k < n) : ((List.range n).map f).getD k d = f k := by
  have hlen : k < ((List.range n).map f).length := by simpa using h
  rw [List.getD_eq_getElem _ _ hlen, List.getElem_map, List.getElem_range]

theorem getD_computeNodeToElementCSR (a : Assembler) (n : Nat)
    (hn : n < a.numNodes) :
    (computeNodeToElementCSR a).getD n []
      = uniqueSortNat ((List.range a.numElements).flatMap (fun e =>
          (elemLocalConn a e).filterMap (fun x =>
            if x = (n : Int) then some e else none))) := by
  rw [computeNodeToElementCSR, getD_map_range _ _ _ _ hn]
  simp [Int.ofNat_eq_natCast]

theorem mem_nodeToElements (a : Assembler) (n : Nat) (hn : n < a.numNodes)
    (e : Nat) :
    e ∈ (computeNodeToElementCSR a).getD n []
      ↔ e < a.numElements ∧ (n : Int) ∈ elemLocalConn a e := by
  rw [getD_computeNodeToElementCSR a n hn, mem_uniqueSortNat]
  simp only [List.mem_flatMap, List.mem_filterMap, List.mem_range]
  constructor
  · rintro ⟨e₁, he₁, x, hx, hif⟩
    by_cases hxc : x = (n : Int)
    · rw [if_pos hxc] at hif
      obtain rfl : e₁ = e := Option.some.inj hif
      exact ⟨he₁, hxc ▸ hx⟩
    · rw [if_neg hxc] at hif
      exact absurd hif (by simp)
  · rintro ⟨he, hc⟩
    exact ⟨e, he, (n : Int), hc, by rw [if_pos rfl]⟩

theorem getD_computeLocalNodeToNodeCSR (a : Assembler) (nodiag : Bool)
    (i : Nat) (hi : i < a.numNodes) :
    (computeLocalNodeToNodeCSR a nodiag).getD i []
      = sortUnifyRow nodiag (Int.ofNat i)
          (((computeNodeToElementCSR a).getD i []).flatMap
            (fun e => elemLocalConn a e)) := by
  rw [computeLocalNodeToNodeCSR, getD_map_range _ _ _ _ hi]

/-- C4: in the CSR structure returned by computeLocalNodeToNodeCSR, the row
of local node i contains local node j if and only if some element (its
connectivity expanded through the dependent nodes) contains global nodes
mapping to local number i and to local number j, except that when the nodiag
flag is set the diagonal entry i is additionally absent from row i; and every
row is sorted strictly increasing, hence duplicate-free.  The hypothesis hres
states that every expanded connectivity entry resolves to a valid local node
number, which the source assumes (an unresolvable entry there corrupts memory
instead of storing a value). -/
theorem computeLocalNodeToNodeCSR_spec (a : Assembler) (nodiag : Bool)
    (hres : ∀ e, e < a.numElements → ∀ g ∈ elemExpandedConn a e,
      0 ≤ getLocalNodeNum a g ∧ getLocalNodeNum a g < (a.numNodes : Int))
    (i : Nat) (hi : i < a.numNodes) :
    (∀ j : Int,
      j ∈ (computeLocalNodeToNodeCSR a nodiag).getD i [] ↔
        ((∃ e, e < a.numElements ∧
          (∃ g1 ∈ elemExpandedConn a e, getLocalNodeNum a g1 = (i : Int)) ∧
          (∃ g2 ∈ elemExpandedConn a e, getLocalNodeNum a g2 = j)) ∧
         (nodiag = true → j ≠ (i : Int)))) ∧
    ((computeLocalNodeToNodeCSR a nodiag).getD i []).Sorted (· < ·) := by
  constructor
  · intro j
    rw [getD_computeLocalNodeToNodeCSR a nodiag i hi, mem_sortUnifyRow]
    have hof : Int.ofNat i = (i : Int) := rfl
    rw [hof]
    constructor
    · rintro ⟨hmem, hdiag⟩
      rcases List.mem_flatMap.mp hmem with ⟨e, he, hj⟩
      rcases (mem_nodeToElements a i hi e).mp he with ⟨helt, hiconn⟩
      rcases List.mem_map.mp hiconn with ⟨g1, hg1, hg1i⟩
      rcases List.mem_map.mp hj with ⟨g2, hg2, hg2j⟩
      exact ⟨⟨e, helt, ⟨g1, hg1, hg1i⟩, ⟨g2, hg2, hg2j⟩⟩, hdiag⟩
    · rintro ⟨⟨e, helt, ⟨g1, hg1, hg1i⟩, ⟨g2, hg2, hg2j⟩⟩, hdiag⟩
      refine ⟨List.mem_flatMap.mpr ⟨e, ?_, ?_⟩, hdiag⟩
      · exact (mem_nodeToElements a i hi e).mpr
          ⟨helt, List.mem_map.mpr ⟨g1, hg1, hg1i⟩⟩
      · exact List.mem_map.mpr ⟨g2, hg2, hg2j⟩
  · rw [getD_computeLocalNodeToNodeCSR a nodiag i hi]
    exact sorted_sortUnifyRow _ _ _

theorem sortAux_sorted (aux : List (Nat × List TacsScalar)) :
    (sortAux aux).Pairwise (fun p q => p.1 ≤ q.1) := by
  have h := @List.sorted_mergeSort (Nat × List TacsScalar)
    (fun p q => decide (p.1 ≤ q.1))
    (fun a b c hab hbc => by
      simp only [decide_eq_true_eq] at hab hbc ⊢; omega)
    (fun a b => by
      simp only [Bool.or_eq_true, decide_eq_true_eq]; omega)
    aux
  exact h.imp (fun hpq => by simpa using hpq)

theorem auxConsume_spec (i : Nat) :
    ∀ (aux : List (Nat × List TacsScalar)) (acc : List TacsScalar),
      aux.Pairwise (fun p q => p.1 ≤ q.1) →
      (∀ p ∈ aux, i ≤ p.1) →
      (auxConsume i aux acc).1
          = (aux.filter (fun p => decide (p.1 = i))).foldl
              (fun b p => addLists b p.2) acc
        ∧ (auxConsume i aux acc).2
          = aux.filter (fun p => decide (p.1 ≠ i))
        ∧ (∀ p ∈ (auxConsume i aux acc).2, i + 1 ≤ p.1)
        ∧ (auxConsume i aux acc).2.Pairwise (fun p q => p.1 ≤ q.1) := by
  intro aux
  induction aux with
  | nil =>
    intro acc _ _
    exact ⟨rfl, rfl, by simp [auxConsume], by simp [auxConsume]⟩
  | cons hd tl ih =>
    intro acc hpair hge
    obtain ⟨n, c⟩ := hd
    rcases List.pairwise_cons.mp hpair with ⟨hhd, htl⟩
    by_cases hni : n = i
    · subst hni
      have hgetl : ∀ p ∈ tl, n ≤ p.1 := fun p hp => hhd p hp
      obtain ⟨h1, h2, h3, h4⟩ := ih (addLists acc c) htl hgetl
      have hcons : auxConsume n ((n, c) :: tl) acc
          = auxConsume n tl (addLists acc c) := by
        simp [auxConsume]
      refine ⟨?_, ?_, ?_, ?_⟩
      · rw [hcons, h1, List.filter_cons]
        simp
      · rw [hcons, h2, List.filter_cons]
        simp
      · rw [hcons]; exact h3
      · rw [hcons]; exact h4
    · have hlt : i < n :=
        lt_of_le_of_ne (hge (n, c) (List.mem_cons_self _ _))
          (fun h => hni h.symm)
      have hcons : auxConsume i ((n, c) :: tl) acc = (acc, (n, c) :: tl) := by
        simp [auxConsume, hni]
      have htlgt : ∀ p ∈ tl, i < p.1 := fun p hp =>
        lt_of_lt_of_le hlt (hhd p hp)
      refine ⟨?_, ?_, ?_, ?_⟩
      · rw [hcons]
        have hnil : ((n, c) :: tl).filter (fun p => decide (p.1 = i)) = [] := by
          rw [List.filter_eq_nil_iff]
          rintro p hp
          simp only [decide_eq_true_eq]
          rcases List.mem_cons.mp hp with rfl | hp
          · omega
          · have := htlgt p hp; omega
        rw [hnil]
        rfl
      · rw [hcons]
        have hself : ((n, c) :: tl).filter (fun p => decide (p.1 ≠ i))
            = (n, c) :: tl := by
          rw [List.filter_eq_self]
          rintro p hp
          simp only [decide_eq_true_eq]
          rcases List.mem_cons.mp hp with rfl | hp
          · omega
          · have := htlgt p hp; omega
        rw [hself]
      · rw [hcons]
        rintro p hp
        rcases List.mem_cons.mp hp with rfl | hp
        · omega
        · have := htlgt p hp; omega
      · rw [hcons]; exact hpair

theorem resLoop_range (st : ResAssembly) :
    ∀ (k s : Nat) (aux : List (Nat × List TacsScalar)) (r : Int → TacsScalar),
      aux.Pairwise (fun p q => p.1 ≤ q.1) →
      (∀ p ∈ aux, s ≤ p.1) →
      resLoop st (List.range' s k) aux r
        = (List.range' s k).foldl
            (fun w i => addVals w (st.conn.getD i [])
              ((aux.filter (fun p => decide (p.1 = i))).foldl
                (fun b p => addLists b p.2) (st.elemRes i))) r := by
  intro k
  induction k with
  | zero => intro s aux r _ _; rfl
  | succ k ih =>
    intro s aux r hpair hge
    obtain ⟨h1, h2, h3, h4⟩ := auxConsume_spec s aux (st.elemRes s) hpair hge
    rw [List.range'_succ]
    simp only [resLoop, List.foldl_cons]
    rw [h1]
    have h3f : ∀ p ∈ aux.filter (fun p => decide (p.1 ≠ s)), s + 1 ≤ p.1 :=
      h2 ▸ h3
    have h4f : (aux.filter (fun p => decide (p.1 ≠ s))).Pairwise
        (fun p q => p.1 ≤ q.1) := h2 ▸ h4
    rw [h2, ih (s + 1) _ _ h4f h3f]
    apply List.foldl_ext
    intro w j hj
    have hjs : s + 1 ≤ j := (List.mem_range'_1.mp hj).1
    have hfsame : (aux.filter (fun p => decide (p.1 ≠ s))).filter
        (fun p => decide (p.1 = j)) = aux.filter (fun p => decide (p.1 = j)) := by
      rw [List.filter_filter]
      apply List.filter_congr
      intro p hp
      by_cases hpj : p.1 = j
      · simp [hpj]; omega
      · simp [hpj]
    rw [hfsame]

/-- C5: in every call of assembleRes (single-thread element-loop branch), the
output vector is zeroed first, then every element residual plus the matching
auxiliary-element contributions are accumulated starting from the zero
vector, then the cross-process add-reduction runs, and only then are the
boundary conditions applied; consequently the assembled residual does not
depend on the contents of the vector before the call. -/
theorem assembleRes_spec (st : ResAssembly)
    (reduceAdd applyBCs : (Int → TacsScalar) → (Int → TacsScalar))
    (v1 v2 : Int → TacsScalar) :
    assembleRes st reduceAdd applyBCs v1
        = applyBCs (reduceAdd (elementAccum st)) ∧
    assembleRes st reduceAdd applyBCs v1
        = assembleRes st reduceAdd applyBCs v2 := by
  have hkey : ∀ v : Int → TacsScalar,
      assembleRes st reduceAdd applyBCs v
        = applyBCs (reduceAdd (elementAccum st)) := by
    intro v
    show applyBCs (reduceAdd (resLoop st (List.range st.numElements)
      (sortAux st.aux) (fun _ => 0))) = applyBCs (reduceAdd (elementAccum st))
    have hloop : resLoop st (List.range st.numElements)
        (sortAux st.aux) (fun _ => 0) = elementAccum st := by
      unfold elementAccum
      simp only [elemContribution]
      rw [List.range_eq_range']
      exact resLoop_range st st.numElements 0 (sortAux st.aux) _
        (sortAux_sorted _) (fun p _ => Nat.zero_le _)
    rw [hloop]
  exact ⟨hkey v1, (hkey v1).trans (hkey v2).symm⟩

theorem selOf_cons (b : Bool) (rest : List Bool) :
    selOf (b :: rest)
      = (if b then [0] else []) ++ (selOf rest).map Nat.succ := by
  unfold selOf
  rw [List.length_cons, List.range_succ_eq_map, List.filter_cons,
    List.filter_map]
  have hfun : ((fun i => (b :: rest).getD i false) ∘ Nat.succ)
      = fun i => rest.getD i false := by
    funext i
    simp [List.getD_cons_succ]
  rw [hfun]
  cases b <;> simp

theorem selOf_length (flags : List Bool) :
    (selOf flags).length = flags.countP id := by
  induction flags with
  | nil => rfl
  | cons b rest ih =>
    rw [selOf_cons, List.countP_cons]
    cases b <;> simp [ih, Nat.add_comm]

theorem selOf_mem (flags : List Bool) (i : Nat) :
    i ∈ selOf flags ↔ i < flags.length ∧ flags.getD i false = true := by
  unfold selOf
  simp [List.mem_filter, List.mem_range]

theorem selOf_label (flags : List Bool) :
    ∀ k (hk : k < (selOf flags).length),
      (flags.take ((selOf flags)[k])).countP id = k := by
  induction flags with
  | nil => intro k hk; simp [selOf] at hk
  | cons b rest ih =>
    intro k hk
    cases b
    · have hsel : selOf (false :: rest) = (selOf rest).map Nat.succ := by
        rw [selOf_cons]; simp
      simp only [hsel] at hk ⊢
      have hk2 : k < (selOf rest).length := by simpa using hk
      rw [List.getElem_map, List.take_succ_cons, List.countP_cons]
      simp only [id]
      rw [ih k hk2]
      simp
    · have hsel : selOf (true :: rest) = 0 :: (selOf rest).map Nat.succ := by
        rw [selOf_cons]; simp
      simp only [hsel] at hk ⊢
      cases k with
      | zero => simp
      | succ k =>
        have hk2 : k < (selOf rest).length := by simpa using hk
        rw [List.getElem_cons_succ, List.getElem_map, List.take_succ_cons,
          List.countP_cons]
        simp only [id]
        rw [ih k hk2]
        simp [Nat.add_comm]

theorem assignReduced_length (flags : List Bool) (base : Int)
    (perm : List Nat) (cur : List Int) :
    (assignReduced flags base perm cur).length = cur.length := by
  simp [assignReduced]

theorem assignReduced_getD_sel (flags : List Bool) (base : Int)
    (perm : List Nat) (cur : List Int) (i : Nat) (hi : i < cur.length)
    (hsel : flags.getD i false = true) :
    (assignReduced flags base perm cur).getD i 0
      = base + ((perm.getD ((flags.take i).countP id) 0 : Nat) : Int) := by
  rw [assignReduced, getD_map_range _ _ _ _ hi, if_pos hsel]

theorem assignReduced_getD_unsel (flags : List Bool) (base : Int)
    (perm : List Nat) (cur : List Int) (i : Nat) (hi : i < cur.length)
    (hsel : flags.getD i false = false) :
    (assignReduced flags base perm cur).getD i 0 = cur.getD i 0 := by
  rw [assignReduced, getD_map_range _ _ _ _ hi,
    if_neg (by rw [hsel]; exact Bool.false_ne_true)]

theorem assignReduced_map_sel (flags : List Bool) (base : Int)
    (perm : List Nat) (cur : List Int) (hlen : flags.length = cur.length)
    (hperm : perm.length = flags.countP id) :
    (selOf flags).map
        (fun i => (assignReduced flags base perm cur).getD i 0)
      = perm.map (fun v : Nat => base + (v : Int)) := by
  apply List.ext_getElem
  · simp [selOf_length, hperm]
  · intro k h1 h2
    have hk : k < (selOf flags).length := by simpa using h1
    have hkp : k < perm.length := by simpa using h2
    rw [List.getElem_map, List.getElem_map]
    have hmem : (selOf flags)[k] ∈ selOf flags := List.getElem_mem hk
    rcases (selOf_mem flags _).mp hmem with ⟨hlt, hsel⟩
    rw [assignReduced_getD_sel flags base perm cur _ (hlen ▸ hlt) hsel,
      selOf_label flags k hk, List.getD_eq_getElem perm 0 hkp]

theorem assignReduced_bounds (flags : List Bool) (base : Int)
    (perm : List Nat) (cur : List Int) (hlen : flags.length = cur.length)
    (hperm : perm.Perm (List.range (flags.countP id))) (i : Nat)
    (hi : i < flags.length) (hsel : flags.getD i false = true) :
    base ≤ (assignReduced flags base perm cur).getD i 0
      ∧ (assignReduced flags base perm cur).getD i 0
        < base + (flags.countP id : Int) := by
  have hplen : perm.length = flags.countP id := by
    simpa using hperm.length_eq
  have hmem : i ∈ selOf flags := (selOf_mem flags i).mpr ⟨hi, hsel⟩
  rcases List.getElem_of_mem hmem with ⟨k, hk, hik⟩
  have hlab : (flags.take i).countP id = k := by
    rw [← hik]; exact selOf_label flags k hk
  have hkc : k < flags.countP id := by
    rw [← selOf_length flags]; exact hk
  rw [assignReduced_getD_sel flags base perm cur i (hlen ▸ hi) hsel, hlab]
  have hvmem : perm.getD k 0 ∈ perm := by
    rw [List.getD_eq_getElem perm 0 (by omega)]
    exact List.getElem_mem _
  have hvlt : perm.getD k 0 < flags.countP id := by
    have := hperm.mem_iff.mp hvmem
    exact List.mem_range.mp this
  omega

theorem schurLocalFlags_length (a : Assembler) (C : List Int) :
    (schurLocalFlags a C).length = a.numNodes := by
  simp [schurLocalFlags]

theorem schurCouplingFlags_length (a : Assembler) (C : List Int) :
    (schurCouplingFlags a C).length = a.numNodes := by
  simp [schurCouplingFlags]

theorem schurLocalFlags_getD (a : Assembler) (C : List Int) (i : Nat)
    (hi : i < a.numNodes) :
    (schurLocalFlags a C).getD i false
      = decide (a.extNodeOffset ≤ i ∧ i < a.extNodeOffset + a.numOwnedNodes
          ∧ ¬Int.ofNat i ∈ C) := by
  rw [schurLocalFlags, getD_map_range _ _ _ _ hi]

theorem schurCouplingFlags_getD (a : Assembler) (C : List Int) (i : Nat)
    (hi : i < a.numNodes) :
    (schurCouplingFlags a C).getD i false
      = decide (a.extNodeOffset ≤ i ∧ i < a.extNodeOffset + a.numOwnedNodes
          ∧ Int.ofNat i ∈ C) := by
  rw [schurCouplingFlags, getD_map_range _ _ _ _ hi]

theorem countP_range_ge (off : Nat) :
    ∀ n, (List.range n).countP (fun i => decide (off ≤ i)) = n - off := by
  intro n
  induction n with
  | zero => simp
  | succ n ih =>
    rw [List.range_succ, List.countP_append, ih]
    by_cases h : off ≤ n
    · simp [List.countP_cons, h]
      omega
    · simp [List.countP_cons, h]
      omega

theorem countP_range_window (off k : Nat) :
    ∀ n, off + k ≤ n →
      (List.range n).countP
        (fun i => decide (off ≤ i ∧ i < off + k)) = k := by
  intro n
  induction n with
  | zero =>
    intro h
    have hk : k = 0 := by omega
    subst hk
    rfl
  | succ n ih =>
    intro h
    rw [List.range_succ, List.countP_append]
    by_cases hn : off + k ≤ n
    · rw [ih hn]
      have hfalse : ¬(off ≤ n ∧ n < off + k) := by omega
      simp [List.countP_cons, hfalse]
    · have hk : off + k = n + 1 := by omega
      have hcongr : (List.range n).countP
            (fun i => decide (off ≤ i ∧ i < off + k))
          = (List.range n).countP (fun i => decide (off ≤ i)) := by
        apply List.countP_congr
        intro i hi
        have hilt : i < n := List.mem_range.mp hi
        simp only [decide_eq_true_eq]
        omega
      rw [hcongr, countP_range_ge]
      by_cases hoffn : off ≤ n
      · have htrue : (off ≤ n ∧ n < off + k) := by omega
        simp [List.countP_cons, htrue]
        omega
      · have hfalse : ¬(off ≤ n ∧ n < off + k) := by omega
        simp [List.countP_cons, hfalse]
        omega

theorem computeReorderingNewNodeNums_owned_getD (a : Assembler)
    (recvSorted newExtNodes : List Int) (perm1 perm2 : List Nat) (i : Nat)
    (h1 : a.extNodeOffset ≤ i) (h2 : i < a.extNodeOffset + a.numOwnedNodes)
    (h3 : i < a.numNodes) :
    newOwnedNodeNum a recvSorted newExtNodes perm1 perm2 i
      = (assignReduced
          (schurCouplingFlags a (computeCouplingNodes a recvSorted))
          (a.ownerRange a.mpiRank
            + ((schurLocalFlags a
                (computeCouplingNodes a recvSorted)).countP id : Int))
          perm2
          (assignReduced
            (schurLocalFlags a (computeCouplingNodes a recvSorted))
            (a.ownerRange a.mpiRank) perm1
            (List.replicate a.numNodes 0))).getD i 0 := by
  simp only [newOwnedNodeNum, computeReorderingNewNodeNums]
  rw [getD_map_range _ _ _ _ h3, if_neg (by omega), if_neg (by omega)]

theorem selOf_schurLocalFlags (a : Assembler) (C : List Int) :
    selOf (schurLocalFlags a C)
      = (ownedLocalNodes a).filter
          (fun i => decide (¬Int.ofNat i ∈ C)) := by
  unfold selOf ownedLocalNodes
  rw [schurLocalFlags_length, List.filter_filter]
  apply List.filter_congr
  intro i hi
  have hin : i < a.numNodes := List.mem_range.mp hi
  rw [schurLocalFlags_getD a C i hin]
  by_cases hA : a.extNodeOffset ≤ i ∧ i < a.extNodeOffset + a.numOwnedNodes
  · by_cases hB : Int.ofNat i ∈ C <;> simp [hA.1, hA.2, hB]
  · rw [Decidable.not_and_iff_or_not] at hA
    rcases hA with hA | hA <;> simp [hA]

theorem selOf_schurCouplingFlags (a : Assembler) (C : List Int) :
    selOf (schurCouplingFlags a C)
      = (ownedLocalNodes a).filter
          (fun i => !decide (¬Int.ofNat i ∈ C)) := by
  unfold selOf ownedLocalNodes
  rw [schurCouplingFlags_length, List.filter_filter]
  apply List.filter_congr
  intro i hi
  have hin : i < a.numNodes := List.mem_range.mp hi
  rw [schurCouplingFlags_getD a C i hin]
  by_cases hA : a.extNodeOffset ≤ i ∧ i < a.extNodeOffset + a.numOwnedNodes
  · by_cases hB : Int.ofNat i ∈ C <;> simp [hA.1, hA.2, hB]
  · rw [Decidable.not_and_iff_or_not] at hA
    rcases hA with hA | hA <;> simp [hA]

theorem schur_counts (a : Assembler) (recvSorted : List Int)
    (hwin : a.extNodeOffset + a.numOwnedNodes ≤ a.numNodes) :
    schurLocalCount a recvSorted + schurCouplingCount a recvSorted
      = a.numOwnedNodes := by
  have hO : (ownedLocalNodes a).length = a.numOwnedNodes := by
    rw [ownedLocalNodes, ← List.countP_eq_length_filter]
    exact countP_range_window _ _ _ hwin
  have hsplit := List.filter_append_perm
    (fun i => decide (¬Int.ofNat i ∈ computeCouplingNodes a recvSorted))
    (ownedLocalNodes a)
  have hlen := hsplit.length_eq
  rw [List.length_append] at hlen
  rw [schurLocalCount, schurCouplingCount, ← selOf_length, ← selOf_length,
    selOf_schurLocalFlags, selOf_schurCouplingFlags]
  omega

/-- C1: for computeReordering with mat_type DIRECT_SCHUR on more than one
process, the new node numbers assigned to the owned local nodes form a
bijection onto the ownership range of this process, split into two
consecutive blocks: every owned node not classified as a coupling node
receives a number in the leading block, every owned coupling node receives a
number in the trailing block (hence strictly greater than that of every
owned non-coupling node), and the owned new numbers are exactly a permutation
of the interval from ownerRange mpiRank to ownerRange (mpiRank+1).  The
parameters perm1 and perm2 are the arrays returned by the ordering back end
for the two passes (external packages; spec sections 4.5 and 8 guarantee each
is a permutation of 0..n-1), recvSorted is the sorted unique list of owned
nodes requested by other processes, and newExtNodes holds the exchanged
external numbers, which do not touch the owned slots. -/
theorem computeReordering_direct_schur (a : Assembler)
    (recvSorted newExtNodes : List Int) (perm1 perm2 : List Nat)
    (hsz : 1 < a.mpiSize)
    (hown : a.ownerRange (a.mpiRank + 1)
      = a.ownerRange a.mpiRank + (a.numOwnedNodes : Int))
    (hwin : a.extNodeOffset + a.numOwnedNodes ≤ a.numNodes)
    (hp1 : perm1.Perm (List.range (schurLocalCount a recvSorted)))
    (hp2 : perm2.Perm (List.range (schurCouplingCount a recvSorted))) :
    (∀ i : Nat, a.extNodeOffset ≤ i →
      i < a.extNodeOffset + a.numOwnedNodes →
      ¬Int.ofNat i ∈ computeCouplingNodes a recvSorted →
      a.ownerRange a.mpiRank
          ≤ newOwnedNodeNum a recvSorted newExtNodes perm1 perm2 i
        ∧ newOwnedNodeNum a recvSorted newExtNodes perm1 perm2 i
          < a.ownerRange a.mpiRank + (schurLocalCount a recvSorted : Int)) ∧
    (∀ j : Nat, a.extNodeOffset ≤ j →
      j < a.extNodeOffset + a.numOwnedNodes →
      Int.ofNat j ∈ computeCouplingNodes a recvSorted →
      a.ownerRange a.mpiRank + (schurLocalCount a recvSorted : Int)
          ≤ newOwnedNodeNum a recvSorted newExtNodes perm1 perm2 j
        ∧ newOwnedNodeNum a recvSorted newExtNodes perm1 perm2 j
          < a.ownerRange (a.mpiRank + 1)) ∧
    (∀ i j : Nat, a.extNodeOffset ≤ i →
      i < a.extNodeOffset + a.numOwnedNodes →
      a.extNodeOffset ≤ j → j < a.extNodeOffset + a.numOwnedNodes →
      ¬Int.ofNat i ∈ computeCouplingNodes a recvSorted →
      Int.ofNat j ∈ computeCouplingNodes a recvSorted →
      newOwnedNodeNum a recvSorted newExtNodes perm1 perm2 i
        < newOwnedNodeNum a recvSorted newExtNodes perm1 perm2 j) ∧
    ((ownedLocalNodes a).map
        (newOwnedNodeNum a recvSorted newExtNodes perm1 perm2)).Perm
      ((List.range a.numOwnedNodes).map
        (fun k : Nat => a.ownerRange a.mpiRank + (k : Int))) := by
  have hperm1len : perm1.length
      = (schurLocalFlags a (computeCouplingNodes a recvSorted)).countP id := by
    simpa [schurLocalCount] using hp1.length_eq
  have hperm2len : perm2.length
      = (schurCouplingFlags a
          (computeCouplingNodes a recvSorted)).countP id := by
    simpa [schurCouplingCount] using hp2.length_eq
  have hlen1 : (schurLocalFlags a (computeCouplingNodes a recvSorted)).length
      = (List.replicate a.numNodes (0 : Int)).length := by
    rw [schurLocalFlags_length, List.length_replicate]
  have hlen2 : (schurCouplingFlags a
        (computeCouplingNodes a recvSorted)).length
      = (assignReduced (schurLocalFlags a (computeCouplingNodes a recvSorted))
          (a.ownerRange a.mpiRank) perm1
          (List.replicate a.numNodes 0)).length := by
    rw [schurCouplingFlags_length, assignReduced_length,
      List.length_replicate]
  -- Value on an owned non-coupling node: the second assignment pass leaves
  -- it untouched, so it is the first-pass value.
  have hval1 : ∀ i : Nat, a.extNodeOffset ≤ i →
      i < a.extNodeOffset + a.numOwnedNodes →
      ¬Int.ofNat i ∈ computeCouplingNodes a recvSorted →
      newOwnedNodeNum a recvSorted newExtNodes perm1 perm2 i
        = (assignReduced
            (schurLocalFlags a (computeCouplingNodes a recvSorted))
            (a.ownerRange a.mpiRank) perm1
            (List.replicate a.numNodes 0)).getD i 0 := by
    intro i h1 h2 h3
    have hin : i < a.numNodes := by omega
    rw [computeReorderingNewNodeNums_owned_getD a recvSorted newExtNodes
      perm1 perm2 i h1 h2 hin]
    apply assignReduced_getD_unsel
    · rw [assignReduced_length, List.length_replicate]
      exact hin
    · rw [schurCouplingFlags_getD a _ i hin, decide_eq_false_iff_not]
      intro hcon
      exact h3 hcon.2.2
  have hbound1 : ∀ i : Nat, a.extNodeOffset ≤ i →
      i < a.extNodeOffset + a.numOwnedNodes →
      ¬Int.ofNat i ∈ computeCouplingNodes a recvSorted →
      a.ownerRange a.mpiRank
          ≤ newOwnedNodeNum a recvSorted newExtNodes perm1 perm2 i
        ∧ newOwnedNodeNum a recvSorted newExtNodes perm1 perm2 i
          < a.ownerRange a.mpiRank + (schurLocalCount a recvSorted : Int) := by
    intro i h1 h2 h3
    have hin : i < a.numNodes := by omega
    rw [hval1 i h1 h2 h3]
    exact assignReduced_bounds _ _ _ _ hlen1 hp1 i
      (by rw [schurLocalFlags_length]; exact hin)
      (by rw [schurLocalFlags_getD a _ i hin, decide_eq_true_eq]
          exact ⟨h1, h2, h3⟩)
  have hbound2 : ∀ j : Nat, a.extNodeOffset ≤ j →
      j < a.extNodeOffset + a.numOwnedNodes →
      Int.ofNat j ∈ computeCouplingNodes a recvSorted →
      a.ownerRange a.mpiRank + (schurLocalCount a recvSorted : Int)
          ≤ newOwnedNodeNum a recvSorted newExtNodes perm1 perm2 j
        ∧ newOwnedNodeNum a recvSorted newExtNodes perm1 perm2 j
          < a.ownerRange (a.mpiRank + 1) := by
    intro j h1 h2 h3
    have hin : j < a.numNodes := by omega
    rw [computeReorderingNewNodeNums_owned_getD a recvSorted newExtNodes
      perm1 perm2 j h1 h2 hin]
    have hb := assignReduced_bounds _
      (a.ownerRange a.mpiRank
        + ((schurLocalFlags a
            (computeCouplingNodes a recvSorted)).countP id : Int))
      _ _ hlen2 hp2 j
      (by rw [schurCouplingFlags_length]; exact hin)
      (by rw [schurCouplingFlags_getD a _ j hin, decide_eq_true_eq]
          exact ⟨h1, h2, h3⟩)
    have hcnt := schur_counts a recvSorted hwin
    rcases hb with ⟨hbl, hbu⟩
    constructor
    · exact hbl
    · rw [hown]
      have : schurLocalCount a recvSorted
          = (schurLocalFlags a
              (computeCouplingNodes a recvSorted)).countP id := rfl
      have hc2 : schurCouplingCount a recvSorted
          = (schurCouplingFlags a
              (computeCouplingNodes a recvSorted)).countP id := rfl
      omega
  refine ⟨hbound1, hbound2, ?_, ?_⟩
  · intro i j hi1 hi2 hj1 hj2 hic hjc
    have hb1 := (hbound1 i hi1 hi2 hic).2
    have hb2 := (hbound2 j hj1 hj2 hjc).1
    omega
  · -- The owned new numbers are a permutation of the ownership interval.
    have hf1 : ∀ i ∈ selOf (schurLocalFlags a
        (computeCouplingNodes a recvSorted)),
        newOwnedNodeNum a recvSorted newExtNodes perm1 perm2 i
          = (assignReduced
              (schurLocalFlags a (computeCouplingNodes a recvSorted))
              (a.ownerRange a.mpiRank) perm1
              (List.replicate a.numNodes 0)).getD i 0 := by
      intro i hi
      rcases (selOf_mem _ _).mp hi with ⟨hilen, hisel⟩
      rw [schurLocalFlags_length] at hilen
      rw [schurLocalFlags_getD a _ i hilen] at hisel
      rcases decide_eq_true_iff.mp hisel with ⟨h1, h2, h3⟩
      exact hval1 i h1 h2 h3
    have hf2 : ∀ j ∈ selOf (schurCouplingFlags a
        (computeCouplingNodes a recvSorted)),
        newOwnedNodeNum a recvSorted newExtNodes perm1 perm2 j
          = (assignReduced
              (schurCouplingFlags a (computeCouplingNodes a recvSorted))
              (a.ownerRange a.mpiRank
                + ((schurLocalFlags a
                    (computeCouplingNodes a recvSorted)).countP id : Int))
              perm2
              (assignReduced
                (schurLocalFlags a (computeCouplingNodes a recvSorted))
                (a.ownerRange a.mpiRank) perm1
                (List.replicate a.numNodes 0))).getD j 0 := by
      intro j hj
      rcases (selOf_mem _ _).mp hj with ⟨hjlen, hjsel⟩
      rw [schurCouplingFlags_length] at hjlen
      rw [schurCouplingFlags_getD a _ j hjlen] at hjsel
      rcases decide_eq_true_iff.mp hjsel with ⟨h1, h2, h3⟩
      exact computeReorderingNewNodeNums_owned_getD a recvSorted newExtNodes
        perm1 perm2 j h1 h2 (by omega)
    have hm1 : (selOf (schurLocalFlags a
        (computeCouplingNodes a recvSorted))).map
          (newOwnedNodeNum a recvSorted newExtNodes perm1 perm2)
        = perm1.map (fun v : Nat => a.ownerRange a.mpiRank + (v : Int)) := by
      rw [List.map_congr_left hf1]
      exact assignReduced_map_sel _ _ _ _ hlen1 hperm1len
    have hm2 : (selOf (schurCouplingFlags a
        (computeCouplingNodes a recvSorted))).map
          (newOwnedNodeNum a recvSorted newExtNodes perm1 perm2)
        = perm2.map (fun v : Nat =>
            (a.ownerRange a.mpiRank
              + ((schurLocalFlags a
                  (computeCouplingNodes a recvSorted)).countP id : Int))
              + (v : Int)) := by
      rw [List.map_congr_left hf2]
      exact assignReduced_map_sel _ _ _ _ hlen2 hperm2len
    have hconcat : (List.range (schurLocalCount a recvSorted)).map
          (fun v : Nat => a.ownerRange a.mpiRank + (v : Int))
        ++ (List.range (schurCouplingCount a recvSorted)).map
          (fun v : Nat =>
            (a.ownerRange a.mpiRank
              + ((schurLocalFlags a
                  (computeCouplingNodes a recvSorted)).countP id : Int))
              + (v : Int))
        = (List.range a.numOwnedNodes).map
            (fun k : Nat => a.ownerRange a.mpiRank + (k : Int)) := by
      rw [← schur_counts a recvSorted hwin, List.range_add, List.map_append,
        List.map_map]
      congr 1
      apply List.map_congr_left
      intro x hx
      show (a.ownerRange a.mpiRank
          + ((schurLocalFlags a
              (computeCouplingNodes a recvSorted)).countP id : Int))
          + (x : Int)
        = a.ownerRange a.mpiRank + ((schurLocalCount a recvSorted + x : Nat) : Int)
      have hc1 : schurLocalCount a recvSorted
          = (schurLocalFlags a
              (computeCouplingNodes a recvSorted)).countP id := rfl
      push_cast
      rw [hc1]
      ring
    have hOsplit := List.filter_append_perm
      (fun i => decide (¬Int.ofNat i ∈ computeCouplingNodes a recvSorted))
      (ownedLocalNodes a)
    refine ((hOsplit.symm.map
      (newOwnedNodeNum a recvSorted newExtNodes perm1 perm2)).trans ?_)
    rw [List.map_append, ← selOf_schurLocalFlags, ← selOf_schurCouplingFlags,
      hm1, hm2, ← hconcat]
    exact (hp1.map _).append (hp2.map _)

/-- Witness for the C2 theorem at the concrete assembler wExt. -/
theorem computeExtNodes_spec_witness :
    wExt.meshInitializedFlag = false ∧
    wExt.elementConn = some [[0, 1, 2]] ∧
    ((computeExtNodes wExt).1 = 0 ∧
     ∃ ext : List Int,
       (computeExtNodes wExt).2.tacsExtNodeNums = some ext ∧
       ext.Sorted (· < ·) ∧
       (∀ g : Int, g ∈ ext ↔
         (0 ≤ g ∧ (g ∈ ([[0, 1, 2]] : List (List Int)).flatten
             ∨ g ∈ depConnFlat wExt) ∧
           (g < wExt.ownerRange wExt.mpiRank
             ∨ wExt.ownerRange (wExt.mpiRank + 1) ≤ g))) ∧
       (computeExtNodes wExt).2.numExtNodes = ext.length ∧
       (computeExtNodes wExt).2.numExtNodes
         = (extCandidateSet wExt [[0, 1, 2]]).card ∧
       (computeExtNodes wExt).2.extNodeOffset
         = ext.countP (fun x => decide (x < wExt.ownerRange wExt.mpiRank)) ∧
       (computeExtNodes wExt).2.numNodes
         = wExt.numOwnedNodes + (computeExtNodes wExt).2.numExtNodes) :=
  ⟨rfl, rfl, computeExtNodes_spec wExt [[0, 1, 2]] rfl rfl⟩

/-- Witness for the C3 theorem at the concrete assembler wLoc. -/
theorem node_num_round_trip_witness :
    wLoc.tacsExtNodeNums = some [2] ∧
    ([(2 : Int)].Sorted (· < ·)) ∧
    (∀ x ∈ [(2 : Int)], 0 ≤ x ∧
      (x < wLoc.ownerRange wLoc.mpiRank
        ∨ wLoc.ownerRange (wLoc.mpiRank + 1) ≤ x)) ∧
    wLoc.extNodeOffset
      = [(2 : Int)].countP (fun x => decide (x < wLoc.ownerRange wLoc.mpiRank)) ∧
    wLoc.numExtNodes = [(2 : Int)].length ∧
    wLoc.numNodes = wLoc.numOwnedNodes + wLoc.numExtNodes ∧
    wLoc.ownerRange (wLoc.mpiRank + 1)
      = wLoc.ownerRange wLoc.mpiRank + (wLoc.numOwnedNodes : Int) ∧
    ((∀ l : Nat, l < wLoc.numNodes →
      getLocalNodeNum wLoc (getGlobalNodeNum wLoc (l : Int)) = (l : Int)) ∧
     (∀ g : Int,
      ((wLoc.ownerRange wLoc.mpiRank ≤ g
          ∧ g < wLoc.ownerRange (wLoc.mpiRank + 1)) ∨ g ∈ [(2 : Int)]) →
      getGlobalNodeNum wLoc (getLocalNodeNum wLoc g) = g)) :=
  ⟨rfl, by decide, by decide, by decide, rfl, rfl, by decide,
    node_num_round_trip wLoc [2] rfl (by decide) (by decide) (by decide)
      rfl rfl (by decide)⟩

/-- Witness for the C4 theorem at the concrete assembler wCsr, row 0. -/
theorem computeLocalNodeToNodeCSR_spec_witness :
    (∀ e, e < wCsr.numElements → ∀ g ∈ elemExpandedConn wCsr e,
      0 ≤ getLocalNodeNum wCsr g
        ∧ getLocalNodeNum wCsr g < (wCsr.numNodes : Int)) ∧
    0 < wCsr.numNodes ∧
    ((∀ j : Int,
      j ∈ (computeLocalNodeToNodeCSR wCsr false).getD 0 [] ↔
        ((∃ e, e < wCsr.numElements ∧
          (∃ g1 ∈ elemExpandedConn wCsr e,
            getLocalNodeNum wCsr g1 = ((0 : Nat) : Int)) ∧
          (∃ g2 ∈ elemExpandedConn wCsr e, getLocalNodeNum wCsr g2 = j)) ∧
         (false = true → j ≠ ((0 : Nat) : Int)))) ∧
    ((computeLocalNodeToNodeCSR wCsr false).getD 0 []).Sorted (· < ·)) := by
  have hres : ∀ e, e < wCsr.numElements → ∀ g ∈ elemExpandedConn wCsr e,
      0 ≤ getLocalNodeNum wCsr g
        ∧ getLocalNodeNum wCsr g < (wCsr.numNodes : Int) := by
    intro e he
    have he1 : e < 1 := he
    have he0 : e = 0 := by omega
    subst he0
    decide
  exact ⟨hres, by decide,
    computeLocalNodeToNodeCSR_spec wCsr false hres 0 (by decide)⟩

/-- C7 counterexample: the concrete assembler wDep holds the dependent-node
table [[(0, 1)]] stored by a previous successful call; calling
setDependentNodes with a table whose single parent is the negative
(dependent) reference -1 fails with error code 1 as the claim states, but
the previously stored table is NOT left unchanged: line 453 frees it before
the validation loop runs, so after the failing call no stored table remains,
refuting the claim that a failing call leaves the stored dependent-node
table unchanged. -/
theorem setDependentNodes_cex :
    wDep.depNodes = some [[((0 : Int), (1 : TacsScalar))]] ∧
    (setDependentNodes wDep [[((-1 : Int), (1 : TacsScalar))]]).1 = 1 ∧
    (setDependentNodes wDep [[((-1 : Int), (1 : TacsScalar))]]).2.depNodes
      = none ∧
    ¬(setDependentNodes wDep [[((-1 : Int), (1 : TacsScalar))]]).2.depNodes
      = wDep.depNodes :=
  ⟨rfl, by decide, by decide, by decide⟩

/-- Witness for the amended C7 theorem at the concrete assembler wDep, which
holds a previously stored table: the call with a valid one-parent table
replaces it and returns 0, and the error branch of the conclusion shows the
old table would have been freed. -/
theorem setDependentNodes_spec_witness :
    wDep.meshInitializedFlag = false ∧
    wDep.tacsExtNodeNums = none ∧
    (((∃ p ∈ depParents [[((1 : Int), (1 : TacsScalar))]],
        p < 0 ∨ wDep.ownerRange wDep.mpiSize ≤ p) →
      setDependentNodes wDep [[((1 : Int), (1 : TacsScalar))]]
        = (1, { wDep with depNodes := none })) ∧
     ((∀ p ∈ depParents [[((1 : Int), (1 : TacsScalar))]],
        0 ≤ p ∧ p < wDep.ownerRange wDep.mpiSize) →
      setDependentNodes wDep [[((1 : Int), (1 : TacsScalar))]]
        = (0, { wDep with depNodes := some [[((1 : Int), (1 : TacsScalar))]] })) ∧
     ((setDependentNodes wDep [[((1 : Int), (1 : TacsScalar))]]).1 = 0 →
      ∀ table,
        (setDependentNodes wDep [[((1 : Int), (1 : TacsScalar))]]).2.depNodes
          = some table →
        ∀ p ∈ depParents table,
          0 ≤ p ∧ p < wDep.ownerRange wDep.mpiSize)) :=
  ⟨rfl, rfl, setDependentNodes_spec wDep [[((1 : Int), (1 : TacsScalar))]]
    rfl rfl⟩

/-- Witness for the C9 theorem at the concrete assembler wExt: node 0 is
owned, node 3 is not, the variable list is NULL and the count negative. -/
theorem addBCs_spec_witness :
    wExt.meshInitializedFlag = false ∧
    (addBCs wExt [0, 3] (-1) none none
      = { wExt with bcMap := (wExt.bcMap ++
          (([0, 3] : List Int).filter (fun n =>
            decide (wExt.ownerRange wExt.mpiRank ≤ n
              ∧ n < wExt.ownerRange (wExt.mpiRank + 1)))).map
            (fun n => ⟨n, if (none : Option (List Int)) = none ∨ (-1 : Int) < 0
              then wExt.varsPerNode else (-1), none, none⟩)) } ∧
    (∀ n ∈ ([0, 3] : List Int),
      (n < wExt.ownerRange wExt.mpiRank
        ∨ wExt.ownerRange (wExt.mpiRank + 1) ≤ n) →
      (addBCs wExt [0, 3] (-1) none none).bcMap.filter
          (fun r => decide (r.node = n))
        = wExt.bcMap.filter (fun r => decide (r.node = n)))) :=
  ⟨rfl, addBCs_spec wExt [0, 3] (-1) none none rfl⟩

/-- Witness for the C1 theorem at the concrete assembler wLoc: rank 1
requests owned node 1, so local node 1 is an owned coupling node and local
node 0 the only owned non-coupling node; both back-end permutations are the
identity on one element. -/
theorem computeReordering_direct_schur_witness :
    1 < wLoc.mpiSize ∧
    wLoc.ownerRange (wLoc.mpiRank + 1)
      = wLoc.ownerRange wLoc.mpiRank + (wLoc.numOwnedNodes : Int) ∧
    wLoc.extNodeOffset + wLoc.numOwnedNodes ≤ wLoc.numNodes ∧
    ([0] : List Nat).Perm (List.range (schurLocalCount wLoc [1])) ∧
    ([0] : List Nat).Perm (List.range (schurCouplingCount wLoc [1])) ∧
    ((∀ i : Nat, wLoc.extNodeOffset ≤ i →
      i < wLoc.extNodeOffset + wLoc.numOwnedNodes →
      ¬Int.ofNat i ∈ computeCouplingNodes wLoc [1] →
      wLoc.ownerRange wLoc.mpiRank
          ≤ newOwnedNodeNum wLoc [1] [5] [0] [0] i
        ∧ newOwnedNodeNum wLoc [1] [5] [0] [0] i
          < wLoc.ownerRange wLoc.mpiRank + (schurLocalCount wLoc [1] : Int)) ∧
    (∀ j : Nat, wLoc.extNodeOffset ≤ j →
      j < wLoc.extNodeOffset + wLoc.numOwnedNodes →
      Int.ofNat j ∈ computeCouplingNodes wLoc [1] →
      wLoc.ownerRange wLoc.mpiRank + (schurLocalCount wLoc [1] : Int)
          ≤ newOwnedNodeNum wLoc [1] [5] [0] [0] j
        ∧ newOwnedNodeNum wLoc [1] [5] [0] [0] j
          < wLoc.ownerRange (wLoc.mpiRank + 1)) ∧
    (∀ i j : Nat, wLoc.extNodeOffset ≤ i →
      i < wLoc.extNodeOffset + wLoc.numOwnedNodes →
      wLoc.extNodeOffset ≤ j → j < wLoc.extNodeOffset + wLoc.numOwnedNodes →
      ¬Int.ofNat i ∈ computeCouplingNodes wLoc [1] →
      Int.ofNat j ∈ computeCouplingNodes wLoc [1] →
      newOwnedNodeNum wLoc [1] [5] [0] [0] i
        < newOwnedNodeNum wLoc [1] [5] [0] [0] j) ∧
    ((ownedLocalNodes wLoc).map (newOwnedNodeNum wLoc [1] [5] [0] [0])).Perm
      ((List.range wLoc.numOwnedNodes).map
        (fun k : Nat => wLoc.ownerRange wLoc.mpiRank + (k : Int)))) :=
  ⟨by decide, by decide, by decide, by decide, by decide,
    computeReordering_direct_schur wLoc [1] [5] [0] [0] (by decide)
      (by decide) (by decide) (by decide) (by decide)⟩

end TACS


